import Mathlib

/-!
Verification of the semantic core of the sql_error_categorizer repository:
catalog model, set-operation output composition, unique-constraint
propagation, CTE binding, set-operation tree construction, and the
expression type checker. Python classes are embedded as Lean structures,
Python dicts as insertion-ordered association lists, and Python sets as
Finsets. External libraries (sqlparse, sqlglot, json, dateutil) are kept
abstract: token streams and annotated expression trees are taken as inputs,
and json.loads composed with json.dumps is treated as the identity.
-/

namespace SqlErrCat

/-! ## Association-list helpers (model of Python dict: insertion-ordered,
update-in-place keeps the original position, new keys are appended). -/

def alookup {α β : Type} [DecidableEq α] : List (α × β) → α → Option β
  | [], _ => none
  | (k, v) :: rest, key => if k = key then some v else alookup rest key

def aset {α β : Type} [DecidableEq α] : List (α × β) → α → β → List (α × β)
  | [], k, v => [(k, v)]
  | (k0, v0) :: rest, k, v =>
      if k0 = k then (k0, v) :: rest else (k0, v0) :: aset rest k v

def asetdefault {α β : Type} [DecidableEq α] (l : List (α × β)) (k : α) (v : β) :
    List (α × β) :=
  match alookup l k with
  | some _ => l
  | none => l ++ [(k, v)]

theorem alookup_aset_self {α β : Type} [DecidableEq α]
    (l : List (α × β)) (k : α) (v : β) : alookup (aset l k v) k = some v := by
  induction l with
  | nil => simp [aset, alookup]
  | cons p rest ih =>
      obtain ⟨k0, v0⟩ := p
      by_cases h : k0 = k
      · simp [aset, h, alookup]
      · simp [aset, h, alookup, ih]

theorem alookup_aset_ne {α β : Type} [DecidableEq α]
    (l : List (α × β)) (k k' : α) (v : β) (h : k' ≠ k) :
    alookup (aset l k v) k' = alookup l k' := by
  have hne : ¬ k = k' := fun hh => h hh.symm
  induction l with
  | nil => simp [aset, alookup, hne]
  | cons p rest ih =>
      obtain ⟨k0, v0⟩ := p
      by_cases h0 : k0 = k
      · subst h0
        simp [aset, alookup, hne]
      · simp [aset, h0, alookup]
        by_cases h1 : k0 = k'
        · simp [h1]
        · simp [h1, ih]

theorem alookup_mem {α β : Type} [DecidableEq α]
    {l : List (α × β)} {k : α} {v : β} (h : alookup l k = some v) : (k, v) ∈ l := by
  induction l with
  | nil => simp [alookup] at h
  | cons p rest ih =>
      obtain ⟨k0, v0⟩ := p
      by_cases h0 : k0 = k
      · subst h0
        simp [alookup] at h
        simp [h]
      · simp [alookup, h0] at h
        exact List.mem_cons_of_mem _ (ih h)

theorem mem_aset {α β : Type} [DecidableEq α]
    {l : List (α × β)} {k : α} {v : β} {p : α × β} (h : p ∈ aset l k v) :
    p ∈ l ∨ p = (k, v) := by
  induction l with
  | nil => simp [aset] at h; simp [h]
  | cons q rest ih =>
      obtain ⟨k0, v0⟩ := q
      by_cases h0 : k0 = k
      · subst h0
        simp [aset] at h
        rcases h with h | h
        · right; simp [h]
        · left; exact List.mem_cons_of_mem _ h
      · simp [aset, h0] at h
        rcases h with h | h
        · left; simp [h]
        · rcases ih h with h1 | h1
          · left; exact List.mem_cons_of_mem _ h1
          · right; exact h1

/-! ## Query-layer catalog data model.

Modelled from the spec: the Table/Constraint classes consumed by
query/set_operations (columns tagged with a table index, constraint kind
set including ALL, output tables living in the query-local empty-string
schema) are imported by the source from a catalog module that is not part
of the source snapshot; their fields follow spec section 3 and the
attribute accesses made by the source code itself. -/

structure UniqueConstraintColumn where
  name : String
  table_idx : Option Nat := none
  deriving DecidableEq, Repr

inductive ConstraintType where
  | PRIMARY_KEY
  | UNIQUE
  | ALL
  deriving DecidableEq, Repr

structure Constraint where
  columns : Finset UniqueConstraintColumn
  constraint_type : ConstraintType
  deriving DecidableEq

structure OutColumn where
  name : String
  table_idx : Option Nat := none
  column_type : String := ""
  is_nullable : Bool := true
  is_constant : Bool := false
  deriving DecidableEq, Repr

structure QTable where
  name : String
  schema_name : String := ""
  columns : List OutColumn := []
  unique_constraints : List Constraint := []
  deriving DecidableEq

/-! ## Binary set-operation outputs
(query/set_operations/binary_set_operation.py). -/

/-- Set comprehension over result.columns in BinarySetOperation.output:
one constraint column per output column. -/
def allRowColumns (t : QTable) : Finset UniqueConstraintColumn :=
  (t.columns.map fun c => ⟨c.name, c.table_idx⟩).toFinset

/-- BinarySetOperation.output: copy the left output, drop ALL constraints,
and when the all flag is false append a whole-row ALL constraint. -/
def binarySetOperationOutput (allFlag : Bool) (leftOutput : QTable) : QTable :=
  let kept := leftOutput.unique_constraints.filter
    (fun c => !(decide (c.constraint_type = ConstraintType.ALL)))
  let result := { leftOutput with unique_constraints := kept }
  if !allFlag then
    { result with unique_constraints :=
        result.unique_constraints ++ [⟨allRowColumns result, ConstraintType.ALL⟩] }
  else
    result

/-- Union.output: take BinarySetOperation.output and keep only ALL
constraints. -/
def unionOutput (allFlag : Bool) (leftOutput : QTable) : QTable :=
  let result := binarySetOperationOutput allFlag leftOutput
  let kept := result.unique_constraints.filter
    (fun c => decide (c.constraint_type = ConstraintType.ALL))
  { result with unique_constraints := kept }

/-- Intersect does not override output, so it uses
BinarySetOperation.output directly. -/
def intersectOutput (allFlag : Bool) (leftOutput : QTable) : QTable :=
  binarySetOperationOutput allFlag leftOutput

/-- Except does not override output, so it uses BinarySetOperation.output
directly. -/
def exceptOutput (allFlag : Bool) (leftOutput : QTable) : QTable :=
  binarySetOperationOutput allFlag leftOutput

theorem filter_not_then_eq {l : List Constraint} :
    (l.filter (fun c => !(decide (c.constraint_type = ConstraintType.ALL)))).filter
      (fun c => decide (c.constraint_type = ConstraintType.ALL)) = [] := by
  induction l with
  | nil => rfl
  | cons c rest ih =>
      by_cases h : c.constraint_type = ConstraintType.ALL
      · simp [List.filter, h, ih]
      · simp [List.filter, h, ih]

/-- A table used as a concrete left operand: one column, no unique
constraints. -/
def sampleLeftTable : QTable :=
  { name := "left", schema_name := "",
    columns := [{ name := "x" }], unique_constraints := [] }

/-- Claim C1, counterexample: an INTERSECT node over a left operand with no
unique constraints does not inherit the left constraint list unchanged:
with the default all flag false, the output gains a whole-row ALL
constraint. -/
theorem intersect_not_inherit_unchanged :
    (intersectOutput false sampleLeftTable).unique_constraints ≠
      sampleLeftTable.unique_constraints := by
  decide

/-- Claim C1, amended: a UNION output retains exactly one whole-row ALL
constraint when the all flag is false and none when it is true; an
INTERSECT or EXCEPT output keeps the left operand non-ALL constraints in
order, drops the left ALL constraints, and appends a whole-row ALL
constraint exactly when the all flag is false; columns are inherited from
the left operand in every case. -/
theorem set_operation_constraint_composition (allFlag : Bool) (t : QTable) :
    (unionOutput false t).unique_constraints =
        [⟨allRowColumns t, ConstraintType.ALL⟩]
    ∧ (unionOutput true t).unique_constraints = []
    ∧ (intersectOutput allFlag t).unique_constraints =
        (t.unique_constraints.filter
          (fun c => !(decide (c.constraint_type = ConstraintType.ALL)))) ++
        (if allFlag then [] else [⟨allRowColumns t, ConstraintType.ALL⟩])
    ∧ exceptOutput allFlag t = intersectOutput allFlag t
    ∧ (unionOutput allFlag t).columns = t.columns
    ∧ (intersectOutput allFlag t).columns = t.columns := by
  refine ⟨?_, ?_, ?_, rfl, ?_, ?_⟩
  · simp [unionOutput, binarySetOperationOutput, allRowColumns,
      List.filter_append, filter_not_then_eq]
  · simp [unionOutput, binarySetOperationOutput, filter_not_then_eq]
  · cases allFlag <;>
      simp [intersectOutput, binarySetOperationOutput, allRowColumns]
  · cases allFlag <;> simp [unionOutput, binarySetOperationOutput]
  · cases allFlag <;> simp [intersectOutput, binarySetOperationOutput]

/-! ## Unique-constraint merging across referenced tables
(Select.output.merge_unique_constraints, query/set_operations/select.py). -/

/-- Tag every column of a base-table constraint with the index of its table
in referenced_tables. -/
def seedColumns (tIdx : Nat) (c : Constraint) : Finset UniqueConstraintColumn :=
  c.columns.image (fun cc => ⟨cc.name, some tIdx⟩)

/-- One round of the Cartesian merge: combine every accumulated constraint
with every constraint of the next table. -/
def mergeStep (tIdx : Nat) (acc : List Constraint) (cs : List Constraint) :
    List Constraint :=
  acc.flatMap (fun c1 => cs.map (fun c2 =>
    (⟨c1.columns ∪ seedColumns tIdx c2, ConstraintType.UNIQUE⟩ : Constraint)))

/-- merge_unique_constraints: seed from the first referenced table, then
fold the Cartesian merge over the remaining tables with indices from 1. -/
def merge_unique_constraints (tables : List QTable) : List Constraint :=
  match tables with
  | [] => []
  | t0 :: rest =>
      let init := t0.unique_constraints.map
        (fun c => (⟨seedColumns 0 c, ConstraintType.UNIQUE⟩ : Constraint))
      (List.enumFrom 1 rest).foldl
        (fun acc p => mergeStep p.1 acc p.2.unique_constraints) init

theorem mergeStep_nil_right (tIdx : Nat) (acc : List Constraint) :
    mergeStep tIdx acc [] = [] := by
  simp [mergeStep]

theorem foldl_mergeStep_nil (l : List (Nat × QTable)) :
    l.foldl (fun acc p => mergeStep p.1 acc p.2.unique_constraints) [] = [] := by
  induction l with
  | nil => rfl
  | cons p rest ih =>
      simp only [List.foldl_cons]
      rw [show mergeStep p.1 [] p.2.unique_constraints = [] from rfl]
      exact ih

/-- Claim C10: if the referenced-table list is non-empty and any referenced
table carries no unique constraints, the Cartesian seed-and-merge step
returns the empty list, dropping every seed constraint from the other
tables. -/
theorem merge_unique_constraints_absorbs_empty (tables : List QTable)
    (_hne : tables ≠ []) (h : ∃ t ∈ tables, t.unique_constraints = []) :
    merge_unique_constraints tables = [] := by
  obtain ⟨t, ht, htuc⟩ := h
  cases tables with
  | nil => cases ht
  | cons t0 rest =>
      rcases List.mem_cons.mp ht with h0 | h0
      · subst h0
        simp [merge_unique_constraints, htuc, foldl_mergeStep_nil]
      · obtain ⟨l1, l2, hsplit⟩ := List.append_of_mem h0
        subst hsplit
        simp only [merge_unique_constraints]
        rw [List.enumFrom_append, List.foldl_append]
        simp only [List.enumFrom_cons, List.foldl_cons]
        rw [htuc, mergeStep_nil_right, foldl_mergeStep_nil]

/-- Table store with primary key sid (witness data). -/
def storeTable : QTable :=
  { name := "store", schema_name := "public",
    columns := [{ name := "sid", column_type := "integer",
                  is_nullable := false }],
    unique_constraints := [⟨{⟨"sid", none⟩}, ConstraintType.PRIMARY_KEY⟩] }

/-- A table with one column and no unique constraints (witness data). -/
def logTable : QTable :=
  { name := "log", schema_name := "public",
    columns := [{ name := "msg", column_type := "text" }],
    unique_constraints := [] }

/-- Witness for claim C10: joining the constrained store table with a
constraint-free table yields no merged constraints at all. -/
theorem merge_unique_constraints_absorbs_empty_witness :
    ([storeTable, logTable] ≠ ([] : List QTable))
    ∧ merge_unique_constraints [storeTable, logTable] = [] :=
  ⟨by decide, merge_unique_constraints_absorbs_empty [storeTable, logTable]
      (by decide) ⟨logTable, by decide, rfl⟩⟩

/-! ## Transitive-equality widening of candidate constraints
(Select.output.filter_valid_constraints and build_equality_groups,
query/set_operations/select.py). -/

/-- The loop body of the widening step: starting from the constraint
columns, union in every equality group that meets the running set. -/
def expandConstraintColumns (groups : List (Finset UniqueConstraintColumn))
    (cols : Finset UniqueConstraintColumn) : Finset UniqueConstraintColumn :=
  groups.foldl
    (fun expanded g => if expanded ∩ g = ∅ then expanded else expanded ∪ g)
    cols

/-- The widening pass over all candidate constraints, keeping each
constraint kind. -/
def widenConstraints (groups : List (Finset UniqueConstraintColumn))
    (cs : List Constraint) : List Constraint :=
  cs.map (fun c => ⟨expandConstraintColumns groups c.columns, c.constraint_type⟩)

theorem subset_expandConstraintColumns
    (groups : List (Finset UniqueConstraintColumn))
    (cols : Finset UniqueConstraintColumn) :
    cols ⊆ expandConstraintColumns groups cols := by
  induction groups generalizing cols with
  | nil => simp [expandConstraintColumns]
  | cons g gs ih =>
      have hstep : expandConstraintColumns (g :: gs) cols =
          expandConstraintColumns gs (if cols ∩ g = ∅ then cols else cols ∪ g) := rfl
      rw [hstep]
      refine subset_trans ?_ (ih _)
      by_cases h : cols ∩ g = ∅
      · simp [h]
      · simp [h]

theorem group_subset_expandConstraintColumns
    (groups : List (Finset UniqueConstraintColumn))
    (cols g : Finset UniqueConstraintColumn) (hg : g ∈ groups)
    (hne : (cols ∩ g).Nonempty) : g ⊆ expandConstraintColumns groups cols := by
  induction groups generalizing cols with
  | nil => cases hg
  | cons g0 gs ih =>
      have hstep : expandConstraintColumns (g0 :: gs) cols =
          expandConstraintColumns gs (if cols ∩ g0 = ∅ then cols else cols ∪ g0) := rfl
      rw [hstep]
      have hsub : cols ⊆ (if cols ∩ g0 = ∅ then cols else cols ∪ g0) := by
        by_cases h : cols ∩ g0 = ∅ <;> simp [h]
      rcases List.mem_cons.mp hg with h0 | h0
      · subst h0
        have hone : ¬ (cols ∩ g = ∅) := by
          intro hcon
          rw [hcon] at hne
          exact Finset.not_nonempty_empty hne
        simp only [hone, if_neg]
        exact subset_trans Finset.subset_union_right
          (subset_expandConstraintColumns _ _)
      · obtain ⟨x, hx⟩ := hne
        have hx2 : x ∈ (if cols ∩ g0 = ∅ then cols else cols ∪ g0) ∩ g := by
          rw [Finset.mem_inter] at hx ⊢
          exact ⟨hsub hx.1, hx.2⟩
        exact ih _ h0 ⟨x, hx2⟩

/-- Claim C2: after the transitive-equality closure is computed, every
candidate constraint that meets an equivalence class is widened to a
constraint containing every member of that class, keeping its kind. -/
theorem equality_class_widening (groups : List (Finset UniqueConstraintColumn))
    (cs : List Constraint) (c : Constraint) (g : Finset UniqueConstraintColumn)
    (hc : c ∈ cs) (hg : g ∈ groups) (hne : (c.columns ∩ g).Nonempty) :
    ∃ c2 ∈ widenConstraints groups cs,
      c.columns ⊆ c2.columns ∧ g ⊆ c2.columns ∧
      c2.constraint_type = c.constraint_type := by
  refine ⟨⟨expandConstraintColumns groups c.columns, c.constraint_type⟩,
    ?_, ?_, ?_, rfl⟩
  · exact List.mem_map_of_mem _ hc
  · exact subset_expandConstraintColumns _ _
  · exact group_subset_expandConstraintColumns _ _ _ hg hne

/-! ## The disjoint-set closure (build_equality_groups). The source find
uses a while loop with path halving; halving only accelerates later
lookups and never changes the returned root, so the pure model walks the
parent chain with fuel (the number of stored parent entries always
bounds the chain length for the forests union builds). -/

def findRoot (parent : List (UniqueConstraintColumn × UniqueConstraintColumn))
    (x : UniqueConstraintColumn) : Nat → UniqueConstraintColumn
  | 0 => x
  | fuel + 1 =>
      match alookup parent x with
      | some p => if p = x then x else findRoot parent p fuel
      | none => x

/-- union(x, y): link the root of y under the root of x when they differ. -/
def ufUnion (parent : List (UniqueConstraintColumn × UniqueConstraintColumn))
    (x y : UniqueConstraintColumn) :
    List (UniqueConstraintColumn × UniqueConstraintColumn) :=
  let rx := findRoot parent x parent.length
  let ry := findRoot parent y parent.length
  if rx = ry then parent else aset parent ry rx

/-- build_equality_groups at the list level: initialize every mentioned
column as its own parent, union the two sides of every equality, then
group the columns by representative in first-appearance order. Each group
list is duplicate-free because the parent keys are unique. -/
def build_equality_groups_list
    (equalities : List (UniqueConstraintColumn × UniqueConstraintColumn)) :
    List (List UniqueConstraintColumn) :=
  let parent0 := equalities.foldl
    (fun p q => asetdefault (asetdefault p q.1 q.1) q.2 q.2) []
  let parent := equalities.foldl (fun p q => ufUnion p q.1 q.2) parent0
  let grouped := parent.foldl
    (fun gs kv =>
      let root := findRoot parent kv.1 parent.length
      match alookup gs root with
      | some s => aset gs root (s ++ [kv.1])
      | none => gs ++ [(root, [kv.1])])
    ([] : List (UniqueConstraintColumn × List UniqueConstraintColumn))
  grouped.map Prod.snd

/-- build_equality_groups: the equivalence classes as column sets. -/
def build_equality_groups
    (equalities : List (UniqueConstraintColumn × UniqueConstraintColumn)) :
    List (Finset UniqueConstraintColumn) :=
  (build_equality_groups_list equalities).map List.toFinset

/-- Table transaction with primary key tid and foreign key sid
(witness data). -/
def transactionTable : QTable :=
  { name := "transaction", schema_name := "public",
    columns := [{ name := "tid", column_type := "integer",
                  is_nullable := false },
                { name := "sid", column_type := "integer",
                  is_nullable := false }],
    unique_constraints := [⟨{⟨"tid", none⟩}, ConstraintType.PRIMARY_KEY⟩] }

/-- Equality groups of the join predicate store.sid = transaction.sid after
column resolution (witness data). -/
def storeTransactionGroups : List (Finset UniqueConstraintColumn) :=
  build_equality_groups [(⟨"sid", some 0⟩, ⟨"sid", some 1⟩)]

/-- Merged candidate constraints of the store-transaction join
(witness data). -/
def storeTransactionMerged : List Constraint :=
  merge_unique_constraints [storeTable, transactionTable]

/-- Witness for claim C2: in the store-transaction join, the merged
candidate constraint containing store.sid is widened to one that also
covers transaction.sid. -/
theorem equality_class_widening_witness :
    ((⟨{⟨"sid", some 0⟩, ⟨"tid", some 1⟩}, ConstraintType.UNIQUE⟩ : Constraint)
        ∈ storeTransactionMerged)
    ∧ ({⟨"sid", some 0⟩, ⟨"sid", some 1⟩} : Finset UniqueConstraintColumn)
        ∈ storeTransactionGroups
    ∧ ∃ c2 ∈ widenConstraints storeTransactionGroups storeTransactionMerged,
        ({⟨"sid", some 0⟩, ⟨"tid", some 1⟩} : Finset UniqueConstraintColumn)
          ⊆ c2.columns ∧
        ({⟨"sid", some 0⟩, ⟨"sid", some 1⟩} : Finset UniqueConstraintColumn)
          ⊆ c2.columns ∧
        c2.constraint_type = ConstraintType.UNIQUE :=
  ⟨by decide, by decide,
    equality_class_widening storeTransactionGroups storeTransactionMerged
      ⟨{⟨"sid", some 0⟩, ⟨"tid", some 1⟩}, ConstraintType.UNIQUE⟩
      {⟨"sid", some 0⟩, ⟨"sid", some 1⟩}
      (by decide) (by decide) (by decide)⟩

/-! ## Expression type checker (query/typechecking.py).

The sqlglot AST is external: every node arrives already annotated by
annotate_types, so the embedded expression nodes carry their annotated
data type. Only the node kinds exercised by the claims are embedded:
literals, booleans, NULL, arithmetic binary operators (the non-predicate
exp.Binary branch) and comparison predicates. -/

inductive DType where
  | INT
  | BIGINT
  | DOUBLE
  | DECIMAL
  | FLOAT
  | VARCHAR
  | TEXT
  | CHAR
  | BOOLEAN
  | DATE
  | DATETIME
  | TIMESTAMP
  | NULL
  | UNKNOWN
  | USERDEFINED
  deriving DecidableEq, Repr

/-- The value string of the sqlglot DataType.Type member, as used by
error_message. -/
def DType.value : DType → String
  | .INT => "INT"
  | .BIGINT => "BIGINT"
  | .DOUBLE => "DOUBLE"
  | .DECIMAL => "DECIMAL"
  | .FLOAT => "FLOAT"
  | .VARCHAR => "VARCHAR"
  | .TEXT => "TEXT"
  | .CHAR => "CHAR"
  | .BOOLEAN => "BOOLEAN"
  | .DATE => "DATE"
  | .DATETIME => "DATETIME"
  | .TIMESTAMP => "TIMESTAMP"
  | .NULL => "NULL"
  | .UNKNOWN => "UNKNOWN"
  | .USERDEFINED => "USERDEFINED"

/-- Membership in DataType.NUMERIC_TYPES, restricted to the embedded
variants. -/
def is_number : DType → Bool
  | .INT | .BIGINT | .DOUBLE | .DECIMAL | .FLOAT => true
  | _ => false

/-- Membership in DataType.TEXT_TYPES, restricted to the embedded
variants. -/
def is_string : DType → Bool
  | .VARCHAR | .TEXT | .CHAR => true
  | _ => false

/-- Membership in DataType.TEMPORAL_TYPES, restricted to the embedded
variants. -/
def is_date : DType → Bool
  | .DATE | .DATETIME | .TIMESTAMP => true
  | _ => false

/-- Split a character list at the first character satisfying p, dropping
the separator; none when no character matches. -/
def splitAtChar (p : Char → Bool) : List Char → Option (List Char × List Char)
  | [] => none
  | c :: rest =>
      if p c then some ([], rest)
      else
        match splitAtChar p rest with
        | some (a, b) => some (c :: a, b)
        | none => none

def isDigitList (l : List Char) : Bool := !l.isEmpty && l.all Char.isDigit

/-- Model of str.lower and str.strip for the ASCII identifiers and
literals at issue, written over the character list so that concrete
instances reduce. -/
def pyLower (s : String) : String := ⟨s.data.map Char.toLower⟩

def stripWhitespace (l : List Char) : List Char :=
  ((l.dropWhile Char.isWhitespace).reverse.dropWhile Char.isWhitespace).reverse

def floatMantissaOk (l : List Char) : Bool :=
  match splitAtChar (fun c => c = '.') l with
  | none => isDigitList l
  | some (ip, fp) =>
      (isDigitList ip && (fp.isEmpty || isDigitList fp))
      || (ip.isEmpty && isDigitList fp)

/-- Model of what the Python float constructor accepts for the decimal
literal forms: optional surrounding whitespace, optional sign, digits with
an optional point, optional exponent. The inf, nan and underscore forms
are omitted; no settled claim depends on them. -/
def pyFloatStringOk (s : String) : Bool :=
  let l := stripWhitespace s.data
  let l := match l with
    | '+' :: r => r
    | '-' :: r => r
    | _ => l
  match splitAtChar (fun c => c = 'e' || c = 'E') l with
  | none => floatMantissaOk l
  | some (m, ex) =>
      let ex := match ex with
        | '+' :: r => r
        | '-' :: r => r
        | _ => ex
      floatMantissaOk m && isDigitList ex

/-- Coarse model of dateutil.parser.parse acceptance on strings: at least
one digit and only digits, separators and letters. No settled claim
reaches this function; it exists so to_date matches the shape of the
source. -/
def dateutilParses (s : String) : Bool :=
  s.toList.any Char.isDigit &&
  s.toList.all (fun c =>
    c.isDigit || c.isAlpha || c = '-' || c = '/' || c = ':' || c = '.' || c = ' ')

/-- ResultType of catalog/types.py with the AtomicType defaults: unknown
type, nullable, not constant, no literal value, no diagnostics. -/
structure RType where
  messages : List (String × String) := []
  data_type : DType := DType.UNKNOWN
  nullable : Bool := true
  constant : Bool := false
  value : Option String := none
  deriving DecidableEq, Repr

/-- AtomicType equality of catalog/types.py: numeric, text and temporal
kinds each form one equivalence class, everything else compares exactly. -/
def atomicEq (a b : RType) : Bool :=
  if is_number a.data_type then is_number b.data_type
  else if is_string a.data_type then is_string b.data_type
  else if is_date a.data_type then is_date b.data_type
  else decide (a.data_type = b.data_type)

/-- to_number: numeric kinds, or a text operand whose literal value parses
as a Python float. -/
def to_number (t : RType) : Bool :=
  if is_number t.data_type then true
  else if is_string t.data_type then
    match t.value with
    | some v => pyFloatStringOk v
    | none => false
  else false

/-- to_date: temporal kinds, or a text operand whose literal value the
generic date parser accepts. -/
def to_date (t : RType) : Bool :=
  if is_date t.data_type then true
  else if is_string t.data_type then
    match t.value with
    | some v => dateutilParses v
    | none => false
  else false

/-- error_message with a string expected-type argument. -/
def error_message (expected : String) (found : RType) : String :=
  "Expected type " ++ pyLower expected ++ ", but found type " ++
    pyLower found.data_type.value ++ "."

inductive CmpOp where
  | EQ
  | NEQ
  | LT
  | GT
  | LTE
  | GTE
  deriving DecidableEq, Repr

def CmpOp.symbol : CmpOp → String
  | .EQ => "="
  | .NEQ => "<>"
  | .LT => "<"
  | .GT => ">"
  | .LTE => "<="
  | .GTE => ">="

/-- The non-predicate exp.Binary branch of get_type: implicit numeric
casts on mismatched operands, a generic diagnostic when both operands are
non-numeric, result typed by the external annotation, nullable and
constant combined from the operands. -/
def typecheckArith (lt rt : RType) (ann : DType) (txt : String) : RType :=
  let old0 := lt.messages ++ rt.messages
  let old :=
    if !(atomicEq lt rt) then
      let old1 :=
        if !(to_number lt) && !(decide (lt.data_type = DType.NULL)) then
          old0 ++ [("Invalid left operand type. " ++ error_message "NUMERIC" lt, txt)]
        else old0
      if !(to_number rt) && !(decide (rt.data_type = DType.NULL)) then
        old1 ++ [("Invalid right operand type. " ++ error_message "NUMERIC" rt, txt)]
      else old1
    else if !(is_number lt.data_type) && !(is_number rt.data_type) then
      if !(decide (lt.data_type = DType.NULL)) || !(decide (rt.data_type = DType.NULL)) then
        old0 ++ [("Non-numeric operands type on arithmetic operation.", txt)]
      else old0
    else old0
  { data_type := ann, nullable := lt.nullable || rt.nullable,
    constant := lt.constant && rt.constant, messages := old, value := none }

/-- typecheck_comparisons: boolean operands restrict the operator, a NULL
operand suppresses the mismatch check, implicit numeric and date casts,
and the result is always a non-nullable constant of the annotated type. -/
def typecheck_comparisons (lt rt : RType) (op : CmpOp) (ann : DType)
    (txt : String) (old0 : List (String × String)) : RType :=
  let old :=
    if decide (lt.data_type = DType.BOOLEAN) && decide (rt.data_type = DType.BOOLEAN)
        && !(decide (op = CmpOp.EQ) || decide (op = CmpOp.NEQ)) then
      old0 ++ [("Invalid comparison operator. Must use \x27=\x27 or \x27<>\x27.", txt)]
    else old0
  if !(atomicEq lt rt) && !(decide (lt.data_type = DType.NULL))
      && !(decide (rt.data_type = DType.NULL)) then
    if to_number lt && to_number rt then
      { data_type := ann, nullable := false, constant := true, messages := old }
    else if to_date lt && to_date rt then
      { data_type := ann, nullable := false, constant := true, messages := old }
    else
      { data_type := ann, nullable := false, constant := true,
        messages := old ++ [("Type mismatch in comparison.", txt)] }
  else
    { data_type := ann, nullable := false, constant := true, messages := old }

/-- The embedded expression fragment; every node carries the data type
assigned by the external sqlglot annotate_types pass. -/
inductive SqlExpr where
  | lit (annType : DType) (value : String)
  | boolLit (annType : DType) (b : Bool)
  | nullLit
  | arith (annType : DType) (opText : String) (l r : SqlExpr)
  | cmp (op : CmpOp) (annType : DType) (l r : SqlExpr)
  deriving DecidableEq, Repr

/-- Rendering of expression.sql() for the embedded fragment, used as the
offending-text component of diagnostics. -/
def sqlText : SqlExpr → String
  | .lit _ v => v
  | .boolLit _ b => if b then "TRUE" else "FALSE"
  | .nullLit => "NULL"
  | .arith _ o l r => sqlText l ++ " " ++ o ++ " " ++ sqlText r
  | .cmp op _ l r => sqlText l ++ " " ++ op.symbol ++ " " ++ sqlText r

/-- get_type over the embedded fragment: literals are non-nullable
constants carrying their text, booleans are non-nullable constants, NULL
is a constant of kind NULL with the nullable default true, binary nodes
dispatch to the arithmetic or comparison branch. -/
def get_type : SqlExpr → RType
  | .lit ann v =>
      { data_type := ann, nullable := false, constant := true,
        value := some v, messages := [] }
  | .boolLit ann _ =>
      { data_type := ann, nullable := false, constant := true, messages := [] }
  | .nullLit => { data_type := DType.NULL, constant := true }
  | .arith ann o l r =>
      typecheckArith (get_type l) (get_type r) ann (sqlText (.arith ann o l r))
  | .cmp op ann l r =>
      typecheck_comparisons (get_type l) (get_type r) op ann
        (sqlText (.cmp op ann l r))
        ((get_type l).messages ++ (get_type r).messages)

theorem is_string_not_is_number {d : DType} (h : is_string d = true) :
    is_number d = false := by
  cases d <;> simp [is_number, is_string] at h ⊢

/-- Claim C6: in an arithmetic binary with a NUMBER left operand, a STRING
right operand whose value parses as a float produces no new diagnostics
and the result carries the annotated type, while a BOOLEAN right operand
appends a diagnostic naming the boolean operand. -/
theorem arithmetic_implicit_cast_rule (lt rt : RType) (ann : DType)
    (txt : String) (hl : is_number lt.data_type = true) :
    ((∃ v, rt.value = some v ∧ pyFloatStringOk v = true) →
      is_string rt.data_type = true →
      ((typecheckArith lt rt ann txt).messages = lt.messages ++ rt.messages
       ∧ (typecheckArith lt rt ann txt).data_type = ann))
    ∧ (rt.data_type = DType.BOOLEAN →
      (typecheckArith lt rt ann txt).messages = (lt.messages ++ rt.messages) ++
        [("Invalid right operand type. Expected type numeric, but found type boolean.",
          txt)]) := by
  constructor
  · rintro ⟨v, hv, hfl⟩ hs
    have hnum_r : is_number rt.data_type = false := is_string_not_is_number hs
    have heq : atomicEq lt rt = false := by
      simp [atomicEq, hl, hnum_r]
    have hton_l : to_number lt = true := by simp [to_number, hl]
    have hton_r : to_number rt = true := by
      simp [to_number, hnum_r, hs, hv, hfl]
    constructor
    · simp [typecheckArith, heq, hton_l, hton_r]
    · simp [typecheckArith]
  · intro hb
    have hnum_b : is_number DType.BOOLEAN = false := rfl
    have heq : atomicEq lt rt = false := by
      simp [atomicEq, hl, hb, hnum_b]
    have hton_l : to_number lt = true := by simp [to_number, hl]
    have hton_r : to_number rt = false := by
      have hs : is_string DType.BOOLEAN = false := rfl
      simp [to_number, hb, hnum_b, hs]
    have hmsg : error_message "NUMERIC" rt =
        "Expected type numeric, but found type boolean." := by
      rw [error_message, hb]
      rfl
    simp [typecheckArith, heq, hton_l, hton_r, hb, hmsg]

/-- Witness for claim C6: the checker accepts 1 + the string 2 with no
diagnostics and annotated type DOUBLE, and flags 1 + TRUE with a
diagnostic naming the boolean operand. -/
theorem arithmetic_implicit_cast_rule_witness :
    (is_number (get_type (SqlExpr.lit DType.INT "1")).data_type = true)
    ∧ (typecheckArith (get_type (SqlExpr.lit DType.INT "1"))
        (get_type (SqlExpr.lit DType.VARCHAR "2")) DType.DOUBLE "1 + 2").messages
        = (get_type (SqlExpr.lit DType.INT "1")).messages ++
          (get_type (SqlExpr.lit DType.VARCHAR "2")).messages
    ∧ (typecheckArith (get_type (SqlExpr.lit DType.INT "1"))
        (get_type (SqlExpr.lit DType.VARCHAR "2")) DType.DOUBLE "1 + 2").data_type
        = DType.DOUBLE
    ∧ (typecheckArith (get_type (SqlExpr.lit DType.INT "1"))
        (get_type (SqlExpr.boolLit DType.BOOLEAN true)) DType.DOUBLE
        "1 + TRUE").messages
        = ((get_type (SqlExpr.lit DType.INT "1")).messages ++
           (get_type (SqlExpr.boolLit DType.BOOLEAN true)).messages) ++
          [("Invalid right operand type. Expected type numeric, but found type boolean.",
            "1 + TRUE")] :=
  ⟨by decide,
    ((arithmetic_implicit_cast_rule (get_type (SqlExpr.lit DType.INT "1"))
        (get_type (SqlExpr.lit DType.VARCHAR "2")) DType.DOUBLE "1 + 2"
        (by decide)).1 ⟨"2", rfl, by decide⟩ (by decide)).1,
    ((arithmetic_implicit_cast_rule (get_type (SqlExpr.lit DType.INT "1"))
        (get_type (SqlExpr.lit DType.VARCHAR "2")) DType.DOUBLE "1 + 2"
        (by decide)).1 ⟨"2", rfl, by decide⟩ (by decide)).2,
    (arithmetic_implicit_cast_rule (get_type (SqlExpr.lit DType.INT "1"))
        (get_type (SqlExpr.boolLit DType.BOOLEAN true)) DType.DOUBLE "1 + TRUE"
        (by decide)).2 rfl⟩

theorem atomicEq_null_right (lt : RType) :
    atomicEq lt (get_type SqlExpr.nullLit) = decide (lt.data_type = DType.NULL) := by
  cases h : lt.data_type <;>
    simp [atomicEq, get_type, h, is_number, is_string, is_date]

/-- Claim C7, counterexample: the comparison of the literal 1 with NULL
carries a NULL operand, type-checks with no diagnostics, yet its result
type has nullable false, not the claimed forced nullable true. -/
theorem null_comparison_not_nullable :
    (get_type (SqlExpr.cmp CmpOp.EQ DType.BOOLEAN
        (SqlExpr.lit DType.INT "1") SqlExpr.nullLit)).messages = []
    ∧ (get_type (SqlExpr.cmp CmpOp.EQ DType.BOOLEAN
        (SqlExpr.lit DType.INT "1") SqlExpr.nullLit)).nullable = false := by
  constructor <;> rfl

/-- Claim C7, amended: a NULL operand is compatible with any operand kind.
In comparisons a NULL side suppresses the mismatch check entirely, so no
diagnostic is added, but the comparison result always has nullable false.
In arithmetic the NULL operand itself is never flagged (only a
non-castable other operand is) and the nullable default true of the NULL
operand forces nullable true on the arithmetic result. -/
theorem null_operand_compatibility (lt : RType) (op : CmpOp) (ann : DType)
    (txt : String) (old : List (String × String)) :
    ((typecheck_comparisons lt (get_type SqlExpr.nullLit) op ann txt old).messages = old
     ∧ (typecheck_comparisons lt (get_type SqlExpr.nullLit) op ann txt old).nullable
         = false)
    ∧ ((typecheck_comparisons (get_type SqlExpr.nullLit) lt op ann txt old).messages
         = old
     ∧ (typecheck_comparisons (get_type SqlExpr.nullLit) lt op ann txt old).nullable
         = false)
    ∧ ((typecheckArith lt (get_type SqlExpr.nullLit) ann txt).nullable = true
     ∧ (typecheckArith lt (get_type SqlExpr.nullLit) ann txt).messages =
         lt.messages ++
           (if to_number lt || decide (lt.data_type = DType.NULL) then []
            else [("Invalid left operand type. " ++ error_message "NUMERIC" lt, txt)]))
    ∧ (typecheckArith (get_type SqlExpr.nullLit) lt ann txt).nullable = true := by
  refine ⟨⟨?_, ?_⟩, ⟨?_, ?_⟩, ⟨?_, ?_⟩, ?_⟩
  · simp [typecheck_comparisons, get_type]
  · simp [typecheck_comparisons, get_type]
  · simp [typecheck_comparisons, get_type]
  · simp [typecheck_comparisons, get_type]
  · simp [typecheckArith, get_type]
  · have hae := atomicEq_null_right lt
    rcases Bool.eq_false_or_eq_true (decide (lt.data_type = DType.NULL)) with hd | hd
    · have heqn : lt.data_type = DType.NULL := of_decide_eq_true hd
      have hnn : is_number lt.data_type = false := by rw [heqn]; rfl
      have hae2 : atomicEq lt (get_type SqlExpr.nullLit) = true := by rw [hae, hd]
      simp [typecheckArith, hae2, hnn, hd, heqn, get_type, is_number]
    · have hae2 : atomicEq lt (get_type SqlExpr.nullLit) = false := by rw [hae, hd]
      have hrm : (get_type SqlExpr.nullLit).messages = [] := rfl
      have hrn : to_number (get_type SqlExpr.nullLit) = false := rfl
      have hrd : decide ((get_type SqlExpr.nullLit).data_type = DType.NULL) = true := rfl
      rcases Bool.eq_false_or_eq_true (to_number lt) with ht | ht
      · simp [typecheckArith, hae2, hd, ht, hrm, hrn, hrd]
      · simp [typecheckArith, hae2, hd, ht, hrm, hrn, hrd]
  · simp [typecheckArith, get_type]

/-! ## Set-operation tree construction (create_set_operation_tree,
query/set_operations.py).

The statement arrives as the top-level token stream of the external
sqlparse parser: parenthesized groups are single tokens, so only operators
at parenthesis depth zero are visible. Rebuilding SQL text from the left
and right token slices and re-parsing it returns the same slices, so the
recursion is modelled directly on token lists. -/

inductive SqlTok where
  | kw (value : String)
  | tok (value : String)
  deriving DecidableEq, Repr

/-- Model of str.upper for the ASCII keywords at issue. -/
def pyUpper (s : String) : String := ⟨s.data.map Char.toUpper⟩

/-- A keyword token whose uppercased value is UNION, INTERSECT or
EXCEPT. -/
def isSetOpKeyword (t : SqlTok) : Bool :=
  match t with
  | .kw v => pyUpper v = "UNION" || pyUpper v = "INTERSECT" || pyUpper v = "EXCEPT"
  | .tok _ => false

def tokUpper (t : SqlTok) : String :=
  match t with
  | .kw v => pyUpper v
  | .tok v => pyUpper v

/-- The ALL flag read from the token following the operator. -/
def modifierAll (rest : List SqlTok) : Bool :=
  match rest with
  | SqlTok.kw v :: _ => if pyUpper v = "ALL" then true else false
  | _ => false

/-- Remove a leading ALL or DISTINCT keyword from the right slice. -/
def stripModifier (rest : List SqlTok) : List SqlTok :=
  match rest with
  | SqlTok.kw v :: r2 =>
      if pyUpper v = "ALL" || pyUpper v = "DISTINCT" then r2 else rest
  | _ => rest

/-- find_set_operation: scan for the first top-level set-operation
keyword; the tokens before it form the left slice, the tokens after it
(with a leading ALL or DISTINCT removed) the right slice. -/
def find_set_operation : List SqlTok → Option (String × List SqlTok × List SqlTok × Bool)
  | [] => none
  | t :: rest =>
      if isSetOpKeyword t then
        some (tokUpper t, [], stripModifier rest, modifierAll rest)
      else
        match find_set_operation rest with
        | some (op, l, r, a) => some (op, t :: l, r, a)
        | none => none

inductive SetOpTree where
  | select (tokens : List SqlTok)
  | union (allFlag : Bool) (l r : SetOpTree)
  | intersect (allFlag : Bool) (l r : SetOpTree)
  | exceptOp (allFlag : Bool) (l r : SetOpTree)
  deriving DecidableEq, Repr

theorem find_set_operation_length (toks : List SqlTok) (op : String)
    (l r : List SqlTok) (a : Bool)
    (h : find_set_operation toks = some (op, l, r, a)) :
    l.length < toks.length ∧ r.length < toks.length := by
  induction toks generalizing op l r a with
  | nil => simp [find_set_operation] at h
  | cons t rest ih =>
      by_cases hk : isSetOpKeyword t
      · simp only [find_set_operation, hk, if_true, Option.some.injEq,
          Prod.mk.injEq] at h
        obtain ⟨h1, h2, h3, h4⟩ := h
        subst h2
        subst h3
        constructor
        · simp
        · have hstrip : (stripModifier rest).length ≤ rest.length := by
            unfold stripModifier
            cases rest with
            | nil => simp
            | cons t2 r2 =>
                cases t2 with
                | kw v =>
                    by_cases hv : (pyUpper v = "ALL" || pyUpper v = "DISTINCT") = true
                    · simp [hv]
                    · simp [hv]
                | tok v => simp
          calc (stripModifier rest).length ≤ rest.length := hstrip
            _ < (t :: rest).length := by simp
      · simp only [find_set_operation, hk, if_neg, if_false] at h
        cases hfind : find_set_operation rest with
        | none => rw [hfind] at h; simp at h
        | some q =>
            obtain ⟨op0, l0, r0, a0⟩ := q
            rw [hfind] at h
            simp at h
            obtain ⟨h1, h2, h3, h4⟩ := h
            subst h2
            subst h3
            have := ih op0 l0 r0 a0 hfind
            constructor
            · simpa using Nat.succ_lt_succ this.1
            · exact Nat.lt_trans this.2 (by simp)

/-- create_set_operation_tree: when a top-level operator is found, recurse
on the two slices and build the matching node with the recorded flag;
otherwise the statement is a bare Select leaf. -/
def create_set_operation_tree (tokens : List SqlTok) : SetOpTree :=
  match h : find_set_operation tokens with
  | some (op, leftToks, rightToks, allFlag) =>
      let left := create_set_operation_tree leftToks
      let right := create_set_operation_tree rightToks
      if op = "UNION" then .union allFlag left right
      else if op = "INTERSECT" then .intersect allFlag left right
      else if op = "EXCEPT" then .exceptOp allFlag left right
      else .select tokens
  | none => .select tokens
termination_by tokens.length
decreasing_by
  · exact (find_set_operation_length tokens op leftToks rightToks allFlag h).1
  · exact (find_set_operation_length tokens op leftToks rightToks allFlag h).2

theorem find_set_operation_none (A : List SqlTok)
    (hA : ∀ t ∈ A, isSetOpKeyword t = false) : find_set_operation A = none := by
  induction A with
  | nil => rfl
  | cons t rest ih =>
      have ht : isSetOpKeyword t = false := hA t (by simp)
      have hrest := ih (fun t2 ht2 => hA t2 (List.mem_cons_of_mem _ ht2))
      simp [find_set_operation, ht, hrest]

theorem find_set_operation_split (A : List SqlTok) (u : String) (rest : List SqlTok)
    (hA : ∀ t ∈ A, isSetOpKeyword t = false)
    (hu : isSetOpKeyword (SqlTok.kw u) = true) :
    find_set_operation (A ++ SqlTok.kw u :: rest) =
      some (pyUpper u, A, stripModifier rest, modifierAll rest) := by
  induction A with
  | nil => simp [find_set_operation, hu, tokUpper]
  | cons t A0 ih =>
      have ht : isSetOpKeyword t = false := hA t (by simp)
      have h0 := ih (fun t2 ht2 => hA t2 (List.mem_cons_of_mem _ ht2))
      simp [find_set_operation, ht, h0]

theorem create_eq_of_find_some {toks : List SqlTok} {op : String}
    {l r : List SqlTok} {a : Bool}
    (h : find_set_operation toks = some (op, l, r, a)) :
    create_set_operation_tree toks =
      (if op = "UNION" then
        SetOpTree.union a (create_set_operation_tree l) (create_set_operation_tree r)
      else if op = "INTERSECT" then
        SetOpTree.intersect a (create_set_operation_tree l) (create_set_operation_tree r)
      else if op = "EXCEPT" then
        SetOpTree.exceptOp a (create_set_operation_tree l) (create_set_operation_tree r)
      else SetOpTree.select toks) := by
  rw [create_set_operation_tree.eq_def]
  split
  · rename_i op2 l2 r2 a2 heq
    rw [h] at heq
    simp only [Option.some.injEq, Prod.mk.injEq] at heq
    obtain ⟨h1, h2, h3, h4⟩ := heq
    subst h1
    subst h2
    subst h3
    subst h4
    rfl
  · rename_i heq
    rw [h] at heq
    cases heq

theorem create_eq_of_find_none {toks : List SqlTok}
    (h : find_set_operation toks = none) :
    create_set_operation_tree toks = SetOpTree.select toks := by
  rw [create_set_operation_tree.eq_def]
  split
  · rename_i op2 l2 r2 a2 heq
    rw [h] at heq
    cases heq
  · rfl

/-- Claim C4, amended: the structure builder splits the statement at the
FIRST top-level set-operation keyword and recurses on both slices, so a
chain of two UNION operators yields a right-associative tree, with the
ALL/DISTINCT modifier of each application recorded on its own node and a
bare SELECT becoming a Select leaf. -/
theorem set_operation_tree_first_split (A B C : List SqlTok) (u1 u2 : String)
    (hA : ∀ t ∈ A, isSetOpKeyword t = false)
    (hB : ∀ t ∈ B, isSetOpKeyword t = false)
    (hC : ∀ t ∈ C, isSetOpKeyword t = false)
    (hu1 : pyUpper u1 = "UNION")
    (hu2 : pyUpper u2 = "UNION")
    (hBmod : stripModifier (B ++ SqlTok.kw u2 :: C) = B ++ SqlTok.kw u2 :: C)
    (hBall : modifierAll (B ++ SqlTok.kw u2 :: C) = false)
    (hCmod : stripModifier C = C)
    (hCall : modifierAll C = false) :
    create_set_operation_tree (A ++ SqlTok.kw u1 :: (B ++ SqlTok.kw u2 :: C)) =
      SetOpTree.union false (SetOpTree.select A)
        (SetOpTree.union false (SetOpTree.select B) (SetOpTree.select C))
    ∧ create_set_operation_tree
        (A ++ SqlTok.kw u1 :: SqlTok.kw "ALL" :: (B ++ SqlTok.kw u2 :: C)) =
      SetOpTree.union true (SetOpTree.select A)
        (SetOpTree.union false (SetOpTree.select B) (SetOpTree.select C)) := by
  have hu1k : isSetOpKeyword (SqlTok.kw u1) = true := by
    simp [isSetOpKeyword, hu1]
  have hu2k : isSetOpKeyword (SqlTok.kw u2) = true := by
    simp [isSetOpKeyword, hu2]
  have hinner : create_set_operation_tree (B ++ SqlTok.kw u2 :: C) =
      SetOpTree.union false (SetOpTree.select B) (SetOpTree.select C) := by
    have hf := find_set_operation_split B u2 C hB hu2k
    rw [hCmod, hCall] at hf
    rw [create_eq_of_find_some hf, hu2]
    rw [create_eq_of_find_none (find_set_operation_none B hB),
      create_eq_of_find_none (find_set_operation_none C hC)]
    simp
  constructor
  · have hf := find_set_operation_split A u1 (B ++ SqlTok.kw u2 :: C) hA hu1k
    rw [hBmod, hBall] at hf
    rw [create_eq_of_find_some hf, hu1]
    rw [create_eq_of_find_none (find_set_operation_none A hA), hinner]
    simp
  · have hf := find_set_operation_split A u1
      (SqlTok.kw "ALL" :: (B ++ SqlTok.kw u2 :: C)) hA hu1k
    have hstrip : stripModifier (SqlTok.kw "ALL" :: (B ++ SqlTok.kw u2 :: C)) =
        B ++ SqlTok.kw u2 :: C := by
      simp [stripModifier, pyUpper]
    have hall : modifierAll (SqlTok.kw "ALL" :: (B ++ SqlTok.kw u2 :: C)) = true := by
      simp [modifierAll, pyUpper]
    rw [hstrip, hall] at hf
    rw [create_eq_of_find_some hf, hu1]
    rw [create_eq_of_find_none (find_set_operation_none A hA), hinner]
    simp

/-- The top-level token stream of A UNION B UNION C (three bare selects,
witness data). -/
def threeSelectsTokens : List SqlTok :=
  [SqlTok.tok "SELECT 1", SqlTok.kw "UNION", SqlTok.tok "SELECT 2",
   SqlTok.kw "UNION", SqlTok.tok "SELECT 3"]

/-- Claim C4, counterexample: on A UNION B UNION C the builder does not
produce the claimed left-associative tree (A UNION B) UNION C. -/
theorem set_operation_tree_not_left_associative :
    create_set_operation_tree threeSelectsTokens ≠
      SetOpTree.union false
        (SetOpTree.union false (SetOpTree.select [SqlTok.tok "SELECT 1"])
          (SetOpTree.select [SqlTok.tok "SELECT 2"]))
        (SetOpTree.select [SqlTok.tok "SELECT 3"]) := by
  have h1 : find_set_operation threeSelectsTokens =
      some ("UNION", [SqlTok.tok "SELECT 1"],
        [SqlTok.tok "SELECT 2", SqlTok.kw "UNION", SqlTok.tok "SELECT 3"], false) := by
    decide
  have h2 : find_set_operation
      [SqlTok.tok "SELECT 2", SqlTok.kw "UNION", SqlTok.tok "SELECT 3"] =
      some ("UNION", [SqlTok.tok "SELECT 2"], [SqlTok.tok "SELECT 3"], false) := by
    decide
  have h3 : find_set_operation [SqlTok.tok "SELECT 1"] = none := by decide
  have h4 : find_set_operation [SqlTok.tok "SELECT 2"] = none := by decide
  have h5 : find_set_operation [SqlTok.tok "SELECT 3"] = none := by decide
  rw [create_eq_of_find_some h1, create_eq_of_find_some h2,
    create_eq_of_find_none h3, create_eq_of_find_none h4,
    create_eq_of_find_none h5]
  simp

/-- Witness for claim C4: on the token stream of A UNION B UNION C the
builder returns the right-associative tree A UNION (B UNION C), and with
UNION ALL as the first application the flag lands on the first node. -/
theorem set_operation_tree_first_split_witness :
    create_set_operation_tree threeSelectsTokens =
      SetOpTree.union false (SetOpTree.select [SqlTok.tok "SELECT 1"])
        (SetOpTree.union false (SetOpTree.select [SqlTok.tok "SELECT 2"])
          (SetOpTree.select [SqlTok.tok "SELECT 3"]))
    ∧ create_set_operation_tree
        [SqlTok.tok "SELECT 1", SqlTok.kw "UNION", SqlTok.kw "ALL",
         SqlTok.tok "SELECT 2", SqlTok.kw "UNION", SqlTok.tok "SELECT 3"] =
      SetOpTree.union true (SetOpTree.select [SqlTok.tok "SELECT 1"])
        (SetOpTree.union false (SetOpTree.select [SqlTok.tok "SELECT 2"])
          (SetOpTree.select [SqlTok.tok "SELECT 3"])) :=
  ⟨(set_operation_tree_first_split [SqlTok.tok "SELECT 1"]
      [SqlTok.tok "SELECT 2"] [SqlTok.tok "SELECT 3"] "UNION" "UNION"
      (by decide) (by decide) (by decide) (by decide) (by decide)
      (by decide) (by decide) (by decide) (by decide)).1,
   (set_operation_tree_first_split [SqlTok.tok "SELECT 1"]
      [SqlTok.tok "SELECT 2"] [SqlTok.tok "SELECT 3"] "UNION" "UNION"
      (by decide) (by decide) (by decide) (by decide) (by decide)
      (by decide) (by decide) (by decide) (by decide)).2⟩

/-! ## Query-level catalog and table resolution.

The catalog indexed by Query and Select (bracket access, auto-creating
population) is the schema-name to table-name to Table mapping of spec
section 3; schema name empty string holds the query-local CTE
pseudo-tables. -/

abbrev QCatalog := List (String × List (String × QTable))

def schemaTables (cat : QCatalog) (schema_name : String) : List (String × QTable) :=
  (alookup cat schema_name).getD []

def catalogGetTable (cat : QCatalog) (schema_name table_name : String) :
    Option QTable :=
  alookup (schemaTables cat schema_name) table_name

/-- has_table used by Select during resolution. -/
def catalogHasTable (cat : QCatalog) (schema_name table_name : String) : Bool :=
  (catalogGetTable cat schema_name table_name).isSome

/-- Bracket assignment into the catalog, creating the schema entry when
absent. -/
def catalogSetTable (cat : QCatalog) (schema_name table_name : String)
    (t : QTable) : QCatalog :=
  aset cat schema_name (aset (schemaTables cat schema_name) table_name t)

/-- The schema probed for an unqualified table name: the query-local
empty-string schema first, then the search path
(Select._get_referenced_tables). -/
def resolveSchemaName (cat : QCatalog) (search_path : String)
    (schemaOpt : Option String) (table_name_in : String) : String :=
  match schemaOpt with
  | some s => s
  | none => if catalogHasTable cat "" table_name_in then "" else search_path

/-- The Table appended to referenced_tables for one FROM or JOIN item: the
resolved catalog table copied under the output name, or an empty table
when resolution misses. -/
def resolveReferencedTable (cat : QCatalog) (search_path : String)
    (schemaOpt : Option String) (table_name_in table_name_out : String) : QTable :=
  let schema_name := resolveSchemaName cat search_path schemaOpt table_name_in
  if catalogHasTable cat schema_name table_name_in then
    { (catalogGetTable cat schema_name table_name_in).getD ⟨table_name_in, "", [], []⟩
        with name := table_name_out }
  else
    { name := table_name_out, schema_name := "", columns := [],
      unique_constraints := [] }

/-! ## CTE extraction (Query.__init__, query/query.py). A CTE body stands
for create_set_operation_tree applied to the CTE text: a function from the
catalog in scope at that point to the output Table. -/

abbrev CTEBody := QCatalog → QTable

/-- One iteration of the CTE loop: build the output on the current
catalog, rename it to the CTE name, and store it under that name in the
schema the output carries. -/
def cteStep (cat : QCatalog) (cte : String × CTEBody) : QCatalog :=
  let output := { cte.2 cat with name := cte.1 }
  catalogSetTable cat (cte.2 cat).schema_name cte.1 output

/-- The catalog after processing a list of CTEs left to right. -/
def catalogAfterCTEs (cat : QCatalog) (ctes : List (String × CTEBody)) : QCatalog :=
  ctes.foldl cteStep cat

theorem catalogAfterCTEs_append (cat : QCatalog)
    (l1 l2 : List (String × CTEBody)) :
    catalogAfterCTEs cat (l1 ++ l2) =
      catalogAfterCTEs (catalogAfterCTEs cat l1) l2 := by
  simp [catalogAfterCTEs, List.foldl_append]

theorem catalogGetTable_set_self (cat : QCatalog) (s n : String) (t : QTable) :
    catalogGetTable (catalogSetTable cat s n t) s n = some t := by
  simp [catalogGetTable, catalogSetTable, schemaTables, alookup_aset_self]

theorem catalogGetTable_set_ne (cat : QCatalog) (s n n2 : String) (t : QTable)
    (h : n2 ≠ n) :
    catalogGetTable (catalogSetTable cat s n t) s n2 =
      catalogGetTable cat s n2 := by
  simp [catalogGetTable, catalogSetTable, schemaTables, alookup_aset_self,
    alookup_aset_ne _ _ _ _ h]

theorem catalogGetTable_cteStep_self (cat : QCatalog) (c : String × CTEBody)
    (hc : (c.2 cat).schema_name = "") :
    catalogGetTable (cteStep cat c) "" c.1 =
      some ({ c.2 cat with name := c.1 }) := by
  rw [cteStep, hc]
  exact catalogGetTable_set_self _ _ _ _

theorem catalogGetTable_cteStep_ne (cat : QCatalog) (c : String × CTEBody)
    (n : String) (hn : n ≠ c.1) (hc : (c.2 cat).schema_name = "") :
    catalogGetTable (cteStep cat c) "" n = catalogGetTable cat "" n := by
  rw [cteStep, hc]
  exact catalogGetTable_set_ne _ _ _ _ _ hn

theorem catalogGetTable_after_not_mem (l : List (String × CTEBody))
    (cat : QCatalog) (n : String)
    (hl : ∀ d ∈ l, ∀ k, (d.2 k).schema_name = "")
    (hn : n ∉ l.map Prod.fst) :
    catalogGetTable (catalogAfterCTEs cat l) "" n = catalogGetTable cat "" n := by
  induction l generalizing cat with
  | nil => rfl
  | cons d rest ih =>
      have hd : ∀ k, (d.2 k).schema_name = "" := hl d (by simp)
      have hnd : n ≠ d.1 := by
        intro he
        exact hn (by simp [he])
      have hrest : ∀ d2 ∈ rest, ∀ k, (d2.2 k).schema_name = "" :=
        fun d2 hd2 => hl d2 (List.mem_cons_of_mem _ hd2)
      have hnr : n ∉ rest.map Prod.fst := fun hm => hn (by simp [hm])
      calc catalogGetTable (catalogAfterCTEs (cteStep cat d) rest) "" n
          = catalogGetTable (cteStep cat d) "" n := ih (cteStep cat d) hrest hnr
        _ = catalogGetTable cat "" n :=
            catalogGetTable_cteStep_ne cat d n hnd (hd cat)

/-- Claim C3: a CTE output is stored in the query-local empty-string
schema under the CTE name as soon as that CTE is processed; any later
point of the query (later CTEs and the main query, represented by the
arbitrary processed suffix mid) resolves the unqualified CTE name to that
output for every search path; and before the CTE is processed (any proper
prefix of the CTE list) the name is not visible in the local schema. -/
theorem cte_binding_left_to_right (cat : QCatalog)
    (pre mid : List (String × CTEBody)) (c : String × CTEBody)
    (hpre : ∀ d ∈ pre, ∀ k, (d.2 k).schema_name = "")
    (hc : ∀ k, (c.2 k).schema_name = "")
    (hmid : ∀ d ∈ mid, ∀ k, (d.2 k).schema_name = "")
    (hnotmid : c.1 ∉ mid.map Prod.fst)
    (hnotpre : c.1 ∉ pre.map Prod.fst)
    (hinit : schemaTables cat "" = []) :
    (∀ sp, resolveReferencedTable (catalogAfterCTEs cat (pre ++ c :: mid))
        sp none c.1 c.1
        = { c.2 (catalogAfterCTEs cat pre) with name := c.1 })
    ∧ catalogHasTable (catalogAfterCTEs cat pre) "" c.1 = false := by
  have hpreget : catalogGetTable (catalogAfterCTEs cat pre) "" c.1 = none := by
    rw [catalogGetTable_after_not_mem pre cat c.1 hpre hnotpre]
    simp [catalogGetTable, hinit, alookup]
  constructor
  · intro sp
    have hsplit : pre ++ c :: mid = (pre ++ [c]) ++ mid := by simp
    have hget : catalogGetTable (catalogAfterCTEs cat (pre ++ c :: mid)) "" c.1
        = some ({ c.2 (catalogAfterCTEs cat pre) with name := c.1 }) := by
      rw [hsplit, catalogAfterCTEs_append, catalogAfterCTEs_append]
      rw [catalogGetTable_after_not_mem mid _ c.1 hmid hnotmid]
      have hone : catalogAfterCTEs (catalogAfterCTEs cat pre) [c] =
          cteStep (catalogAfterCTEs cat pre) c := rfl
      rw [hone]
      exact catalogGetTable_cteStep_self _ c (hc _)
    have hhas : catalogHasTable (catalogAfterCTEs cat (pre ++ c :: mid)) "" c.1
        = true := by
      simp [catalogHasTable, hget]
    rw [resolveReferencedTable, resolveSchemaName]
    simp only [hhas, if_true, hget]
    rfl
  · simp [catalogHasTable, hpreget]

/-- The one-column output of the CTE store (witness data). -/
def cteStoreBody : CTEBody :=
  fun _ => { name := "", schema_name := "",
             columns := [{ name := "x", column_type := "integer",
                           is_nullable := false, is_constant := true }],
             unique_constraints := [] }

/-- A catalog holding a catalog table also called store in schema public
(witness data). -/
def catalogWithStore : QCatalog := [("public", [("store", storeTable)])]

/-- Witness for claim C3: WITH store AS (SELECT 1 AS x) SELECT * FROM
store resolves the unqualified name store to the CTE output with its one
column x, not to the catalog table store in the search-path schema. -/
theorem cte_binding_left_to_right_witness :
    resolveReferencedTable
        (catalogAfterCTEs catalogWithStore [("store", cteStoreBody)])
        "public" none "store" "store"
      = { cteStoreBody catalogWithStore with name := "store" }
    ∧ catalogHasTable catalogWithStore "" "store" = false :=
  ⟨(cte_binding_left_to_right catalogWithStore [] [] ("store", cteStoreBody)
      (by intro d hd k; cases hd) (fun _ => rfl)
      (by intro d hd k; cases hd) (by decide) (by decide) rfl).1 "public",
   (cte_binding_left_to_right catalogWithStore [] [] ("store", cteStoreBody)
      (by intro d hd k; cases hd) (fun _ => rfl)
      (by intro d hd k; cases hd) (by decide) (by decide) rfl).2⟩

/-! ## Select output construction (Select.output,
query/set_operations/select.py).

The sqlglot AST of one SELECT is embedded as the data the output property
reads: projection items, FROM and JOIN table references, the DISTINCT
flag, GROUP BY columns, and the equi-join equality pairs that
get_join_equalities extracts from ON clauses and the WHERE conjuncts (the
CNF normalization itself is external). Aliased and other projected
expressions carry the ResultType fields the expression checker assigns to
them, since the node is typed by the checker before the column is added. -/

structure ColRef where
  qualifier : Option String := none
  cname : String
  quoted : Bool := false
  deriving DecidableEq, Repr

inductive ProjItem where
  | star
  | tableStar (table_name : String)
  | aliasItem (aliasName : String) (quoted : Bool) (column_type : String)
      (is_nullable is_constant : Bool)
  | columnItem (col : ColRef)
  | exprItem (column_type : String) (is_nullable is_constant : Bool)
  deriving DecidableEq, Repr

structure SelAst where
  items : List ProjItem := []
  fromRefs : List (Option String × String × String) := []
  distinct : Bool := false
  group_by : List ColRef := []
  equalities : List (ColRef × ColRef) := []
  deriving DecidableEq, Repr

/-- The column name after the quoting rule: exact when quoted, lowercased
otherwise. -/
def resolveColumnName (c : ColRef) : String :=
  if c.quoted then c.cname else pyLower c.cname

/-- The table index of a column reference: the first table with the
qualifier name, or the first table containing the column. This block is
inlined three times in the source (add_column, the GROUP BY block, and
resolve inside filter_valid_constraints). -/
def resolveColumnTableIdx (tables : List QTable) (c : ColRef) : Option Nat :=
  match c.qualifier with
  | some tn => tables.findIdx? (fun t => t.name == tn)
  | none => tables.findIdx?
      (fun t => t.columns.any (fun cc => cc.name == resolveColumnName c))

def resolveUCC (tables : List QTable) (c : ColRef) : UniqueConstraintColumn :=
  ⟨resolveColumnName c, resolveColumnTableIdx tables c⟩

/-- Modelled from the spec: the two-argument get_type over
referenced_tables and to_res_type used by add_column come from a
typechecking package module missing from the source snapshot; per spec
section 4.4 a column types against the first matching candidate, carrying
its type, nullability and constancy, and a miss yields an error-typed
(unknown, nullable) result. -/
def columnResultType (tables : List QTable) (qual : Option String)
    (name : String) : String × Bool × Bool :=
  let fromTable := fun (t : QTable) =>
    match t.columns.find? (fun cc => cc.name == name) with
    | some cc => (cc.column_type, cc.is_nullable, cc.is_constant)
    | none => ("unknown", true, false)
  match qual with
  | some tn =>
      match tables.find? (fun t => t.name == tn) with
      | some t => fromTable t
      | none => ("unknown", true, false)
  | none =>
      match tables.find? (fun t => t.columns.any (fun cc => cc.name == name)) with
      | some t => fromTable t
      | none => ("unknown", true, false)

/-- add_star: every column of every referenced table in table order,
tagged with the table index. -/
def starColumns (tables : List QTable) : List OutColumn :=
  (List.enum tables).flatMap (fun p =>
    p.2.columns.map (fun col =>
      { name := col.name, table_idx := some p.1, column_type := col.column_type,
        is_nullable := col.is_nullable, is_constant := col.is_constant }))

/-- add_table_star: the columns of the first referenced table with the
given name, or nothing when the table is absent. -/
def tableStarColumns (tables : List QTable) (tn : String) : List OutColumn :=
  match tables.find? (fun t => t.name == tn) with
  | some t =>
      let idx := (tables.findIdx? (fun t2 => t2 == t)).getD 0
      t.columns.map (fun col =>
        { name := col.name, table_idx := some idx, column_type := col.column_type,
          is_nullable := col.is_nullable, is_constant := col.is_constant })
  | none => []

/-- add_column: resolved name, table index and checker-assigned type. -/
def columnItemOut (tables : List QTable) (c : ColRef) : OutColumn :=
  let name := resolveColumnName c
  let rt := columnResultType tables c.qualifier name
  { name := name, table_idx := resolveColumnTableIdx tables c,
    column_type := rt.1, is_nullable := rt.2.1, is_constant := rt.2.2 }

def anonymousName (n : Nat) : String := "?column_" ++ toString n ++ "?"

/-- One iteration of the projection loop, threading the anonymous-name
counter. -/
def projFold (tables : List QTable) (acc : List OutColumn × Nat)
    (item : ProjItem) : List OutColumn × Nat :=
  match item with
  | .star => (acc.1 ++ starColumns tables, acc.2)
  | .tableStar tn => (acc.1 ++ tableStarColumns tables tn, acc.2)
  | .aliasItem a quoted ty nl cst =>
      (acc.1 ++ [{ name := if quoted then a else pyLower a, column_type := ty,
                   is_nullable := nl, is_constant := cst }], acc.2)
  | .columnItem c => (acc.1 ++ [columnItemOut tables c], acc.2)
  | .exprItem ty nl cst =>
      (acc.1 ++ [{ name := anonymousName acc.2, column_type := ty,
                   is_nullable := nl, is_constant := cst }], acc.2 + 1)

def buildColumns (tables : List QTable) (items : List ProjItem) : List OutColumn :=
  (items.foldl (projFold tables) ([], 1)).1

def groupByColumns (tables : List QTable) (gb : List ColRef) :
    Finset UniqueConstraintColumn :=
  (gb.map (resolveUCC tables)).toFinset

/-- The overlap-merging pass after widening: for every equality group,
every member column and every constraint meeting the group, emit the
constraint with the group replaced by that single column. Constraints
disjoint from every group are dropped by this pass. -/
def substitutionStep (glist : List (List UniqueConstraintColumn))
    (cs : List Constraint) : List Constraint :=
  glist.flatMap (fun gl => gl.flatMap (fun col =>
    (cs.filter (fun c => !(decide (c.columns ∩ gl.toFinset = ∅)))).map (fun c =>
      ⟨(c.columns \ gl.toFinset) ∪ {col}, c.constraint_type⟩)))

/-- A constraint survives only if each of its columns appears among the
output columns that carry a table index, with matching index and name. -/
def constraintValidForOutput (cols : List OutColumn) (uc : Constraint) : Bool :=
  decide (∀ cc ∈ uc.columns, ∃ oc ∈ cols,
    oc.table_idx ≠ none ∧ oc.table_idx = cc.table_idx ∧ oc.name = cc.name)

/-- filter_valid_constraints: the DISTINCT whole-output constraint, then
the merged, GROUP-BY-extended, equality-widened and substituted
candidates, filtered against the projected columns. -/
def filter_valid_constraints (tables : List QTable) (ast : SelAst)
    (outCols : List OutColumn) : List Constraint :=
  let constraints0 : List Constraint :=
    if ast.distinct then
      [⟨(outCols.map (fun col =>
          (⟨col.name, col.table_idx⟩ : UniqueConstraintColumn))).toFinset,
        ConstraintType.UNIQUE⟩]
    else []
  let all0 := merge_unique_constraints tables
  let all1 :=
    if ast.group_by ≠ [] then
      all0 ++ [⟨groupByColumns tables ast.group_by, ConstraintType.UNIQUE⟩]
    else all0
  let all2 :=
    if ast.equalities ≠ [] then
      let ucEqs := ast.equalities.map
        (fun p => (resolveUCC tables p.1, resolveUCC tables p.2))
      let glist := build_equality_groups_list ucEqs
      substitutionStep glist (widenConstraints (glist.map List.toFinset) all1)
    else all1
  constraints0 ++ all2.filter (constraintValidForOutput outCols)

/-- The output Table assembled from the projection loop and the constraint
pipeline. -/
def select_output_from_ast (ast : SelAst) (tables : List QTable) : QTable :=
  let cols := buildColumns tables ast.items
  { name := "", schema_name := "", columns := cols,
    unique_constraints := filter_valid_constraints tables ast cols }

/-! ## Select object state (Select.__init__, referenced_tables, output). -/

structure SelectState where
  ast : Option SelAst
  catalog : QCatalog := []
  search_path : String := "public"
  referenced_tables_cache : Option (List QTable) := none
  deriving DecidableEq

/-- _get_referenced_tables: empty on parse failure, else one resolved
table per FROM or JOIN reference in order. -/
def get_referenced_tables_value (s : SelectState) : List QTable :=
  match s.ast with
  | none => []
  | some ast => ast.fromRefs.map
      (fun r => resolveReferencedTable s.catalog s.search_path r.1 r.2.1 r.2.2)

/-- An access to the referenced_tables property: the value, the post
state, and whether the body _get_referenced_tables actually ran. -/
def referencedTablesAccess (s : SelectState) :
    List QTable × SelectState × Bool :=
  match s.referenced_tables_cache with
  | some v => (v, s, false)
  | none =>
      let v := get_referenced_tables_value s
      (v, { s with referenced_tables_cache := some v }, true)

/-- The value of the output property: the empty table on parse failure,
else the assembled output over the referenced tables. -/
def select_output (s : SelectState) : QTable :=
  match s.ast with
  | none => ⟨"", "", [], []⟩
  | some ast => select_output_from_ast ast (get_referenced_tables_value s)

/-- An access to the output property: output has no cache field, so its
body runs on every access; when an AST is present it reads
referenced_tables, which may fill that cache. -/
def outputAccess (s : SelectState) : QTable × SelectState × Bool :=
  match s.ast with
  | none => (⟨"", "", [], []⟩, s, true)
  | some ast =>
      let r := referencedTablesAccess s
      (select_output_from_ast ast r.1, r.2.1, true)

/-- Claim C8: when parsing failed (no AST), constructing and querying the
Select degrades to the empty shape: no referenced tables, and an output
table with no columns and no constraints. -/
theorem parse_failure_degrades (s : SelectState) (h : s.ast = none) :
    get_referenced_tables_value s = []
    ∧ select_output s = (⟨"", "", [], []⟩ : QTable)
    ∧ (select_output s).columns = []
    ∧ (outputAccess s).1 = select_output s := by
  refine ⟨?_, ?_, ?_, ?_⟩ <;>
    simp [get_referenced_tables_value, select_output, outputAccess, h]

/-- Witness for claim C8: a Select whose SQL failed to parse. -/
theorem parse_failure_degrades_witness :
    get_referenced_tables_value { ast := none } = []
    ∧ select_output { ast := none } = (⟨"", "", [], []⟩ : QTable)
    ∧ (select_output { ast := none }).columns = []
    ∧ (outputAccess { ast := none }).1 = select_output { ast := none } :=
  parse_failure_degrades { ast := none } rfl

/-- A Select over SELECT 1 (one constant expression item, witness
data). -/
def selectOneState : SelectState :=
  { ast := some { items := [ProjItem.exprItem "number" false true] } }

/-- Claim C9, counterexample: output is not memoized. On a Select with an
AST, the second access to output runs the property body again (third
component true) instead of returning a cached value without recomputing. -/
theorem output_not_memoized :
    (outputAccess ((outputAccess selectOneState).2.1)).2.2 = true := by
  decide

/-- Claim C9, amended: referenced_tables is computed once and memoized on
first access: a second access returns the cached value, does not rerun the
body, and leaves the state unchanged. output has no cache: every access
reruns its body, though a second access returns an equal Table and leaves
the state unchanged, because the value depends only on the immutable AST
and the memoized referenced_tables. -/
theorem select_property_memoization (s : SelectState) :
    referencedTablesAccess ((referencedTablesAccess s).2.1) =
      ((referencedTablesAccess s).1, (referencedTablesAccess s).2.1, false)
    ∧ outputAccess ((outputAccess s).2.1) =
      ((outputAccess s).1, (outputAccess s).2.1, true) := by
  constructor
  · cases hc : s.referenced_tables_cache with
    | some v => simp [referencedTablesAccess, hc]
    | none => simp [referencedTablesAccess, hc]
  · cases ha : s.ast with
    | none => simp [outputAccess, ha]
    | some ast =>
        cases hc : s.referenced_tables_cache with
        | some v => simp [outputAccess, referencedTablesAccess, ha, hc]
        | none =>
            simp [outputAccess, referencedTablesAccess, ha, hc,
              get_referenced_tables_value]

/-! ## Persistent catalog and its JSON document (catalog/catalog.py).

to_json is json.dumps of to_dict and from_json is from_dict of
json.loads; dumps and loads are the external json library and invert each
other, so the round trip is modelled as from_dict after to_dict over
document structures mirroring the emitted dictionaries. The cyclic
Column.table back reference carries no data of its own and is omitted. -/

inductive JUCType where
  | PRIMARY_KEY
  | UNIQUE
  deriving DecidableEq, Repr

def JUCType.value : JUCType → String
  | .PRIMARY_KEY => "PRIMARY KEY"
  | .UNIQUE => "UNIQUE"

/-- UniqueConstraintType(value): the enum constructor raises ValueError on
any other string, modelled as none. -/
def JUCType.ofValue (s : String) : Option JUCType :=
  if s = "PRIMARY KEY" then some .PRIMARY_KEY
  else if s = "UNIQUE" then some .UNIQUE
  else none

structure JColumn where
  name : String
  column_type : String
  numeric_precision : Option Int := none
  numeric_scale : Option Int := none
  is_nullable : Bool := true
  fk_schema : Option String := none
  fk_table : Option String := none
  fk_column : Option String := none
  deriving DecidableEq, Repr

structure JUniqueConstraint where
  columns : Finset String
  constraint_type : JUCType
  deriving DecidableEq

structure JTable where
  name : String
  unique_constraints : List JUniqueConstraint := []
  columns : List (String × JColumn) := []
  deriving DecidableEq

structure JSchema where
  name : String
  tables : List (String × JTable) := []
  deriving DecidableEq

structure JCatalog where
  schemas : List (String × JSchema) := []
  deriving DecidableEq

/-! Document structures: the dictionary shapes emitted by to_dict. -/

structure ColumnDoc where
  name : String
  column_type : String
  numeric_precision : Option Int
  numeric_scale : Option Int
  is_nullable : Bool
  fk_schema : Option String
  fk_table : Option String
  fk_column : Option String
  deriving DecidableEq, Repr

structure UCDoc where
  columns : List String
  constraint_type : String
  deriving DecidableEq, Repr

structure TableDoc where
  name : String
  unique_constraints : List UCDoc
  columns : List (String × ColumnDoc)
  deriving DecidableEq, Repr

structure SchemaDoc where
  name : String
  tables : List (String × TableDoc)
  deriving DecidableEq, Repr

structure CatalogDoc where
  version : Int
  schemas : List (String × SchemaDoc)
  deriving DecidableEq, Repr

def JUniqueConstraint.to_dict (u : JUniqueConstraint) : UCDoc :=
  { columns := u.columns.sort (· ≤ ·), constraint_type := u.constraint_type.value }

/-- UniqueConstraint.from_dict lowercases every column name. -/
def JUniqueConstraint.from_dict (d : UCDoc) : Option JUniqueConstraint :=
  match JUCType.ofValue d.constraint_type with
  | some ct => some { columns := (d.columns.map pyLower).toFinset,
                      constraint_type := ct }
  | none => none

def JColumn.to_dict (c : JColumn) : ColumnDoc :=
  { name := c.name, column_type := c.column_type,
    numeric_precision := c.numeric_precision, numeric_scale := c.numeric_scale,
    is_nullable := c.is_nullable, fk_schema := c.fk_schema,
    fk_table := c.fk_table, fk_column := c.fk_column }

/-- The or-None coercion of the source from_dict: empty strings collapse
to None. -/
def orNone (o : Option String) : Option String :=
  match o with
  | some v => if v = "" then none else some v
  | none => none

/-- Column.from_dict lowercases the name and collapses empty foreign-key
fields. -/
def JColumn.from_dict (d : ColumnDoc) : JColumn :=
  { name := pyLower d.name, column_type := d.column_type,
    numeric_precision := d.numeric_precision, numeric_scale := d.numeric_scale,
    is_nullable := d.is_nullable, fk_schema := orNone d.fk_schema,
    fk_table := orNone d.fk_table, fk_column := orNone d.fk_column }

def JTable.to_dict (t : JTable) : TableDoc :=
  { name := t.name,
    unique_constraints := t.unique_constraints.map JUniqueConstraint.to_dict,
    columns := t.columns.map (fun p => (p.1, p.2.to_dict)) }

/-- The constraint loop of Table.from_dict, propagating the ValueError of
an unknown constraint kind. -/
def readConstraints : List UCDoc → Option (List JUniqueConstraint)
  | [] => some []
  | d :: rest =>
      match JUniqueConstraint.from_dict d with
      | some u =>
          match readConstraints rest with
          | some us => some (u :: us)
          | none => none
      | none => none

/-- The column loop of Table.from_dict: the dictionary key is ignored and
the entry is stored under the lowercased column name. -/
def insertColumns (acc : List (String × JColumn)) :
    List (String × ColumnDoc) → List (String × JColumn)
  | [] => acc
  | p :: rest =>
      insertColumns (aset acc (JColumn.from_dict p.2).name (JColumn.from_dict p.2))
        rest

def JTable.from_dict (d : TableDoc) : Option JTable :=
  match readConstraints d.unique_constraints with
  | some ucs => some { name := pyLower d.name, unique_constraints := ucs,
                       columns := insertColumns [] d.columns }
  | none => none

def JSchema.to_dict (s : JSchema) : SchemaDoc :=
  { name := s.name, tables := s.tables.map (fun p => (p.1, p.2.to_dict)) }

/-- The table loop of Schema.from_dict: keys ignored, entries stored under
the lowercased table name. -/
def insertTables (acc : List (String × JTable)) :
    List (String × TableDoc) → Option (List (String × JTable))
  | [] => some acc
  | p :: rest =>
      match JTable.from_dict p.2 with
      | some tbl => insertTables (aset acc tbl.name tbl) rest
      | none => none

def JSchema.from_dict (d : SchemaDoc) : Option JSchema :=
  match insertTables [] d.tables with
  | some tbls => some { name := pyLower d.name, tables := tbls }
  | none => none

def JCatalog.to_dict (c : JCatalog) : CatalogDoc :=
  { version := 1, schemas := c.schemas.map (fun p => (p.1, p.2.to_dict)) }

def insertSchemas (acc : List (String × JSchema)) :
    List (String × SchemaDoc) → Option (List (String × JSchema))
  | [] => some acc
  | p :: rest =>
      match JSchema.from_dict p.2 with
      | some sch => insertSchemas (aset acc sch.name sch) rest
      | none => none

def JCatalog.from_dict (d : CatalogDoc) : Option JCatalog :=
  match insertSchemas [] d.schemas with
  | some schs => some { schemas := schs }
  | none => none

/-! Population operations: Catalog.add_column and
Table.add_unique_constraint through the create-on-get accessors. -/

/-- get_schema and get_table create missing entries, then the table is
modified in place. -/
def modifyTable (cat : JCatalog) (s t : String) (f : JTable → JTable) : JCatalog :=
  let sch := (alookup cat.schemas s).getD ⟨s, []⟩
  let tbl := (alookup sch.tables t).getD ⟨t, [], []⟩
  { schemas := aset cat.schemas s { sch with tables := aset sch.tables t (f tbl) } }

inductive CatalogOp where
  | addColumn (schema_name table_name column_name column_type : String)
      (numeric_precision numeric_scale : Option Int) (is_nullable : Bool)
      (fk_schema fk_table fk_column : Option String)
  | addUniqueConstraint (schema_name table_name : String)
      (columns : Finset String) (constraint_type : JUCType)
  deriving DecidableEq

def applyOp (cat : JCatalog) : CatalogOp → JCatalog
  | .addColumn s t c ty pr sc nl fs ft fc =>
      modifyTable cat s t (fun tbl =>
        let col : JColumn :=
          { name := c, column_type := ty, numeric_precision := pr,
            numeric_scale := sc, is_nullable := nl, fk_schema := fs,
            fk_table := ft, fk_column := fc }
        { tbl with columns := aset tbl.columns c col })
  | .addUniqueConstraint s t cols ct =>
      modifyTable cat s t (fun tbl =>
        { tbl with unique_constraints := tbl.unique_constraints ++ [⟨cols, ct⟩] })

def applyOps (cat : JCatalog) (ops : List CatalogOp) : JCatalog :=
  ops.foldl applyOp cat

/-! Auxiliary association-list facts for the round trip. -/

theorem alookup_eq_none {α β : Type} [DecidableEq α]
    (l : List (α × β)) (k : α) :
    alookup l k = none ↔ k ∉ l.map Prod.fst := by
  induction l with
  | nil => simp [alookup]
  | cons p rest ih =>
      obtain ⟨k0, v0⟩ := p
      by_cases h : k0 = k
      · subst h
        simp [alookup]
      · have hstep : alookup ((k0, v0) :: rest) k = alookup rest k := by
          simp [alookup, h]
        rw [hstep, ih]
        constructor
        · intro hnm
          simp only [List.map_cons, List.mem_cons, not_or]
          exact ⟨fun he => h he.symm, hnm⟩
        · intro hnm
          simp only [List.map_cons, List.mem_cons, not_or] at hnm
          exact hnm.2

theorem aset_of_lookup_none {α β : Type} [DecidableEq α]
    {l : List (α × β)} {k : α} (v : β) (h : alookup l k = none) :
    aset l k v = l ++ [(k, v)] := by
  induction l with
  | nil => rfl
  | cons p rest ih =>
      obtain ⟨k0, v0⟩ := p
      by_cases h0 : k0 = k
      · simp [alookup, h0] at h
      · simp [alookup, h0] at h
        simp [aset, h0, ih h]

theorem alookup_append {α β : Type} [DecidableEq α]
    (a b : List (α × β)) (k : α) :
    alookup (a ++ b) k =
      match alookup a k with
      | some v => some v
      | none => alookup b k := by
  induction a with
  | nil => simp [alookup]
  | cons p rest ih =>
      obtain ⟨k0, v0⟩ := p
      by_cases h : k0 = k
      · simp [alookup, h]
      · simp [alookup, h, ih]

theorem map_fst_aset_none {α β : Type} [DecidableEq α]
    {l : List (α × β)} {k : α} (v : β) (h : alookup l k = none) :
    (aset l k v).map Prod.fst = l.map Prod.fst ++ [k] := by
  rw [aset_of_lookup_none v h]
  simp

theorem map_fst_aset_some {α β : Type} [DecidableEq α]
    {l : List (α × β)} {k : α} {w : β} (v : β) (h : alookup l k = some w) :
    (aset l k v).map Prod.fst = l.map Prod.fst := by
  induction l with
  | nil => simp [alookup] at h
  | cons p rest ih =>
      obtain ⟨k0, v0⟩ := p
      by_cases h0 : k0 = k
      · simp [aset, h0]
      · simp [alookup, h0] at h
        simp [aset, h0, ih h]

/-! Well-formedness carried by every catalog built through add_column and
add_unique_constraint with lowercase identifiers: dictionary keys equal
stored names, names are lowercase fixpoints, foreign-key fields are never
the empty string, and keys are duplicate-free. -/

def okFk (o : Option String) : Prop := o ≠ some ""

def WfColumn (key : String) (c : JColumn) : Prop :=
  key = c.name ∧ pyLower c.name = c.name ∧ okFk c.fk_schema ∧ okFk c.fk_table
  ∧ okFk c.fk_column

def WfUC (u : JUniqueConstraint) : Prop := ∀ x ∈ u.columns, pyLower x = x

def WfTable (key : String) (t : JTable) : Prop :=
  key = t.name ∧ pyLower t.name = t.name
  ∧ (∀ u ∈ t.unique_constraints, WfUC u)
  ∧ (∀ p ∈ t.columns, WfColumn p.1 p.2)
  ∧ (t.columns.map Prod.fst).Nodup

def WfSchema (key : String) (s : JSchema) : Prop :=
  key = s.name ∧ pyLower s.name = s.name ∧ (∀ p ∈ s.tables, WfTable p.1 p.2)
  ∧ (s.tables.map Prod.fst).Nodup

def WfCatalog (c : JCatalog) : Prop :=
  (∀ p ∈ c.schemas, WfSchema p.1 p.2) ∧ (c.schemas.map Prod.fst).Nodup

def WfOp : CatalogOp → Prop
  | .addColumn s t c _ _ _ _ fs ft fc =>
      pyLower s = s ∧ pyLower t = t ∧ pyLower c = c ∧ okFk fs ∧ okFk ft ∧ okFk fc
  | .addUniqueConstraint s t cols _ =>
      pyLower s = s ∧ pyLower t = t ∧ ∀ x ∈ cols, pyLower x = x

instance (o : Option String) : Decidable (okFk o) :=
  inferInstanceAs (Decidable (o ≠ some ""))

instance (op : CatalogOp) : Decidable (WfOp op) :=
  match op with
  | .addColumn s t c _ _ _ _ fs ft fc =>
      inferInstanceAs (Decidable (pyLower s = s ∧ pyLower t = t ∧ pyLower c = c
        ∧ okFk fs ∧ okFk ft ∧ okFk fc))
  | .addUniqueConstraint s t cols _ =>
      inferInstanceAs (Decidable (pyLower s = s ∧ pyLower t = t
        ∧ ∀ x ∈ cols, pyLower x = x))

theorem orNone_eq {o : Option String} (h : okFk o) : orNone o = o := by
  cases o with
  | none => rfl
  | some v =>
      have hv : v ≠ "" := fun he => h (by rw [he])
      simp [orNone, hv]

theorem column_roundtrip (c : JColumn) (hn : pyLower c.name = c.name)
    (h1 : okFk c.fk_schema) (h2 : okFk c.fk_table) (h3 : okFk c.fk_column) :
    JColumn.from_dict (JColumn.to_dict c) = c := by
  simp only [JColumn.to_dict, JColumn.from_dict]
  rw [hn, orNone_eq h1, orNone_eq h2, orNone_eq h3]

theorem uc_roundtrip (u : JUniqueConstraint) (h : WfUC u) :
    JUniqueConstraint.from_dict (JUniqueConstraint.to_dict u) = some u := by
  have hv : JUCType.ofValue u.constraint_type.value = some u.constraint_type := by
    cases u.constraint_type <;> rfl
  simp only [JUniqueConstraint.to_dict, JUniqueConstraint.from_dict, hv]
  have hmem : ∀ x ∈ u.columns.sort (· ≤ ·), pyLower x = x :=
    fun x hx => h x ((Finset.mem_sort _).mp hx)
  have hmap : (u.columns.sort (· ≤ ·)).map pyLower = u.columns.sort (· ≤ ·) := by
    have := List.map_congr_left hmem
    rw [this]
    simp
  rw [hmap, Finset.sort_toFinset]

theorem readConstraints_roundtrip (l : List JUniqueConstraint)
    (h : ∀ u ∈ l, WfUC u) :
    readConstraints (l.map JUniqueConstraint.to_dict) = some l := by
  induction l with
  | nil => rfl
  | cons u rest ih =>
      have hu := uc_roundtrip u (h u (by simp))
      have hrest := ih (fun u2 hu2 => h u2 (List.mem_cons_of_mem _ hu2))
      simp [readConstraints, hu, hrest]

theorem insertColumns_rebuild (l : List (String × JColumn)) :
    ∀ acc : List (String × JColumn),
    (∀ p ∈ l, WfColumn p.1 p.2) →
    (l.map Prod.fst).Nodup →
    (∀ k ∈ l.map Prod.fst, alookup acc k = none) →
    insertColumns acc (l.map (fun p => (p.1, p.2.to_dict))) = acc ++ l := by
  induction l with
  | nil => intro acc _ _ _; simp [insertColumns]
  | cons p rest ih =>
      intro acc hw hn hd
      obtain ⟨key, col⟩ := p
      obtain ⟨hkey, hlow, f1, f2, f3⟩ := hw (key, col) (by simp)
      have hkeyn : key = col.name := hkey
      have hcr : JColumn.from_dict (JColumn.to_dict col) = col :=
        column_roundtrip col hlow f1 f2 f3
      have hlookup : alookup acc key = none := hd key (by simp)
      have hn' : (key :: rest.map Prod.fst).Nodup := by simpa using hn
      obtain ⟨hnotin, hn2⟩ := List.nodup_cons.mp hn'
      simp only [List.map_cons, insertColumns, hcr, ← hkeyn]
      rw [aset_of_lookup_none col hlookup]
      rw [ih (acc ++ [(key, col)])
        (fun q hq => hw q (List.mem_cons_of_mem _ hq)) hn2 ?_]
      · simp
      · intro k hk
        rw [alookup_append]
        rw [hd k (by simp [hk])]
        have hkne : ¬ key = k := fun he => hnotin (he ▸ hk)
        simp [alookup, hkne]

theorem table_roundtrip (key : String) (t : JTable) (h : WfTable key t) :
    JTable.from_dict (JTable.to_dict t) = some t := by
  obtain ⟨_, hlow, hucs, hcols, hnd⟩ := h
  have hrc := readConstraints_roundtrip t.unique_constraints hucs
  have hic := insertColumns_rebuild t.columns [] hcols hnd (fun _ _ => rfl)
  simp only [JTable.to_dict, JTable.from_dict, hrc, hic]
  rw [hlow]
  simp

theorem insertTables_rebuild (l : List (String × JTable)) :
    ∀ acc : List (String × JTable),
    (∀ p ∈ l, WfTable p.1 p.2) →
    (l.map Prod.fst).Nodup →
    (∀ k ∈ l.map Prod.fst, alookup acc k = none) →
    insertTables acc (l.map (fun p => (p.1, p.2.to_dict))) = some (acc ++ l) := by
  induction l with
  | nil => intro acc _ _ _; simp [insertTables]
  | cons p rest ih =>
      intro acc hw hn hd
      obtain ⟨key, tbl⟩ := p
      have hwp := hw (key, tbl) (by simp)
      have hkey : key = tbl.name := hwp.1
      have htr : JTable.from_dict (JTable.to_dict tbl) = some tbl :=
        table_roundtrip key tbl hwp
      have hlookup : alookup acc key = none := hd key (by simp)
      have hn' : (key :: rest.map Prod.fst).Nodup := by simpa using hn
      obtain ⟨hnotin, hn2⟩ := List.nodup_cons.mp hn'
      simp only [List.map_cons, insertTables, htr, ← hkey]
      rw [aset_of_lookup_none tbl hlookup]
      rw [ih (acc ++ [(key, tbl)])
        (fun q hq => hw q (List.mem_cons_of_mem _ hq)) hn2 ?_]
      · simp
      · intro k hk
        rw [alookup_append]
        rw [hd k (by simp [hk])]
        have hkne : ¬ key = k := fun he => hnotin (he ▸ hk)
        simp [alookup, hkne]

theorem schema_roundtrip (key : String) (s : JSchema) (h : WfSchema key s) :
    JSchema.from_dict (JSchema.to_dict s) = some s := by
  obtain ⟨_, hlow, htabs, hnd⟩ := h
  have hit := insertTables_rebuild s.tables [] htabs hnd (fun _ _ => rfl)
  simp only [JSchema.to_dict, JSchema.from_dict, hit]
  rw [hlow]
  simp

theorem insertSchemas_rebuild (l : List (String × JSchema)) :
    ∀ acc : List (String × JSchema),
    (∀ p ∈ l, WfSchema p.1 p.2) →
    (l.map Prod.fst).Nodup →
    (∀ k ∈ l.map Prod.fst, alookup acc k = none) →
    insertSchemas acc (l.map (fun p => (p.1, p.2.to_dict))) = some (acc ++ l) := by
  induction l with
  | nil => intro acc _ _ _; simp [insertSchemas]
  | cons p rest ih =>
      intro acc hw hn hd
      obtain ⟨key, sch⟩ := p
      have hwp := hw (key, sch) (by simp)
      have hkey : key = sch.name := hwp.1
      have hsr : JSchema.from_dict (JSchema.to_dict sch) = some sch :=
        schema_roundtrip key sch hwp
      have hlookup : alookup acc key = none := hd key (by simp)
      have hn' : (key :: rest.map Prod.fst).Nodup := by simpa using hn
      obtain ⟨hnotin, hn2⟩ := List.nodup_cons.mp hn'
      simp only [List.map_cons, insertSchemas, hsr, ← hkey]
      rw [aset_of_lookup_none sch hlookup]
      rw [ih (acc ++ [(key, sch)])
        (fun q hq => hw q (List.mem_cons_of_mem _ hq)) hn2 ?_]
      · simp
      · intro k hk
        rw [alookup_append]
        rw [hd k (by simp [hk])]
        have hkne : ¬ key = k := fun he => hnotin (he ▸ hk)
        simp [alookup, hkne]

theorem catalog_roundtrip_wf (c : JCatalog) (h : WfCatalog c) :
    JCatalog.from_dict (JCatalog.to_dict c) = some c := by
  obtain ⟨hall, hnd⟩ := h
  have his := insertSchemas_rebuild c.schemas [] hall hnd (fun _ _ => rfl)
  simp only [JCatalog.to_dict, JCatalog.from_dict, his]
  simp

theorem aset_forall {α β : Type} [DecidableEq α] {l : List (α × β)} {k : α}
    {v : β} {P : α → β → Prop}
    (hl : ∀ p ∈ l, P p.1 p.2) (hkv : P k v) : ∀ p ∈ aset l k v, P p.1 p.2 := by
  intro p hp
  rcases mem_aset hp with h | h
  · exact hl p h
  · rw [h]
    exact hkv

theorem nodup_fst_aset {α β : Type} [DecidableEq α] {l : List (α × β)} {k : α}
    (v : β) (hn : (l.map Prod.fst).Nodup) : ((aset l k v).map Prod.fst).Nodup := by
  cases hl : alookup l k with
  | some w =>
      rw [map_fst_aset_some v hl]
      exact hn
  | none =>
      rw [map_fst_aset_none v hl]
      rw [alookup_eq_none] at hl
      simp [List.nodup_append, hn, hl]

theorem wf_modifyTable (cat : JCatalog) (s t : String) (f : JTable → JTable)
    (hcat : WfCatalog cat) (hls : pyLower s = s) (hlt : pyLower t = t)
    (hf : ∀ tbl, WfTable t tbl → WfTable t (f tbl)) :
    WfCatalog (modifyTable cat s t f) := by
  obtain ⟨hall, hnd⟩ := hcat
  have hsch : WfSchema s ((alookup cat.schemas s).getD ⟨s, []⟩) := by
    cases hl : alookup cat.schemas s with
    | some sch => exact hall (s, sch) (alookup_mem hl)
    | none =>
        refine ⟨rfl, hls, ?_, ?_⟩
        · intro p hp
          simp at hp
        · simp
  obtain ⟨hskey, hslow, hstabs, hsnd⟩ := hsch
  have htbl : WfTable t
      ((alookup ((alookup cat.schemas s).getD ⟨s, []⟩).tables t).getD ⟨t, [], []⟩) := by
    cases hl : alookup ((alookup cat.schemas s).getD ⟨s, []⟩).tables t with
    | some tbl => exact hstabs (t, tbl) (alookup_mem hl)
    | none =>
        refine ⟨rfl, hlt, ?_, ?_, ?_⟩
        · intro u hu
          simp at hu
        · intro p hp
          simp at hp
        · simp
  constructor
  · apply aset_forall hall
    exact ⟨hskey, hslow, aset_forall hstabs (hf _ htbl), nodup_fst_aset _ hsnd⟩
  · exact nodup_fst_aset _ hnd

theorem wf_applyOp (cat : JCatalog) (op : CatalogOp)
    (hcat : WfCatalog cat) (hop : WfOp op) : WfCatalog (applyOp cat op) := by
  cases op with
  | addColumn s t c ty pr sc nl fs ft fc =>
      obtain ⟨hls, hlt, hlc, f1, f2, f3⟩ := hop
      refine wf_modifyTable cat s t _ hcat hls hlt ?_
      intro tbl htbl
      obtain ⟨hk, hl, hu, hc, hn⟩ := htbl
      refine ⟨hk, hl, hu, ?_, nodup_fst_aset _ hn⟩
      exact aset_forall hc ⟨rfl, hlc, f1, f2, f3⟩
  | addUniqueConstraint s t cols ct =>
      obtain ⟨hls, hlt, hcols⟩ := hop
      refine wf_modifyTable cat s t _ hcat hls hlt ?_
      intro tbl htbl
      obtain ⟨hk, hl, hu, hc, hn⟩ := htbl
      refine ⟨hk, hl, ?_, hc, hn⟩
      intro u hu2
      rcases List.mem_append.mp hu2 with h | h
      · exact hu u h
      · simp at h
        rw [h]
        exact hcols

theorem wf_applyOps (ops : List CatalogOp) :
    ∀ cat : JCatalog, WfCatalog cat → (∀ op ∈ ops, WfOp op) →
    WfCatalog (applyOps cat ops) := by
  induction ops with
  | nil => intro cat hcat _; exact hcat
  | cons op rest ih =>
      intro cat hcat hops
      exact ih (applyOp cat op)
        (wf_applyOp cat op hcat (hops op (by simp)))
        (fun op2 h2 => hops op2 (List.mem_cons_of_mem _ h2))

/-- Claim C5, amended: for a catalog built from the empty catalog by
add_column and add_unique_constraint calls whose schema, table, column and
constraint-column identifiers are lowercase and whose foreign-key fields
are never the empty string, from_dict of to_dict (and hence from_json of
to_json, the json string stage being the external inverse pair) returns
the catalog itself; with mixed-case identifiers the round trip
lowercases names and structural equality fails. -/
theorem catalog_json_roundtrip (ops : List CatalogOp)
    (h : ∀ op ∈ ops, WfOp op) :
    JCatalog.from_dict (JCatalog.to_dict (applyOps ⟨[]⟩ ops)) =
      some (applyOps ⟨[]⟩ ops) :=
  catalog_roundtrip_wf _
    (wf_applyOps ops ⟨[]⟩ ⟨fun p hp => absurd hp (by simp), by simp⟩ h)

/-- A catalog built with an uppercase schema identifier (witness data). -/
def mixedCaseCatalog : JCatalog :=
  applyOps ⟨[]⟩
    [CatalogOp.addColumn "PUBLIC" "t" "c" "integer" none none true none none none]

/-- Claim C5, counterexample: the round trip is not structurally equal to
the original catalog when an identifier is not lowercase, because
from_dict folds names to lowercase while add_column stores them as
given. -/
theorem catalog_json_roundtrip_mixed_case_fails :
    JCatalog.from_dict (JCatalog.to_dict mixedCaseCatalog) ≠
      some mixedCaseCatalog := by
  decide

/-- Lowercase population ops exercising both operation kinds (witness
data). -/
def lowercaseOps : List CatalogOp :=
  [CatalogOp.addColumn "public" "store" "sid" "integer" none none false
     none none none,
   CatalogOp.addUniqueConstraint "public" "store" {"sid"} JUCType.PRIMARY_KEY]

/-- Witness for claim C5: a concrete lowercase catalog with a column and a
primary-key constraint round-trips losslessly. -/
theorem catalog_json_roundtrip_witness :
    (∀ op ∈ lowercaseOps, WfOp op)
    ∧ JCatalog.from_dict (JCatalog.to_dict (applyOps ⟨[]⟩ lowercaseOps)) =
        some (applyOps ⟨[]⟩ lowercaseOps) :=
  ⟨by decide, catalog_json_roundtrip lowercaseOps (by decide)⟩

end SqlErrCat
